import Mathlib

/-!
Verification of the board engine of a falling-block puzzle game.

The development shallowly embeds the Rust sources: the piece catalog and
piece instances (models/piece.rs, views/piece_instance.rs), the board with
its grid and incremental row/column score caches (models/board.rs), the
pausable game timer (utils/timer.rs), the wall-kick tables
(models/wall_kick.rs) and the per-board game state machine
(views/board_instance.rs).  Mutable methods become state-passing functions
returning the result together with the updated structure.  Machine integers
(isize/usize) are modeled as Int/Nat; the f32 timer quantities are modeled
as exact rationals, and no theorem below depends on rounding.  The unbounded
search loops of the drop computation take an explicit fuel argument and
return none when it runs out (the source loops forever in those cases).
-/

/-! ### List helpers mirroring iterator idioms of the source -/

/-- The integer range a..b of Rust as a list (empty when b is at most a). -/
def intRange (a b : Int) : List Int :=
  (List.range (b - a).toNat).map (fun i => a + (i : Int))

/-- Minimum of an integer list, with a default for the empty list
(the source unwraps, which is only reached on nonempty vectors). -/
def listMinD (l : List Int) (d : Int) : Int :=
  match l with
  | [] => d
  | x :: xs => xs.foldl min x

/-- Maximum of an integer list, with a default for the empty list. -/
def listMaxD (l : List Int) (d : Int) : Int :=
  match l with
  | [] => d
  | x :: xs => xs.foldl max x

/-- Insertion step of the descending sort used by clear_rows. -/
def insertDesc (x : Int) : List Int → List Int
  | [] => [x]
  | y :: ys => if y ≤ x then x :: y :: ys else y :: insertDesc x ys

/-- Descending sort, modeling sort_by(|a, b| b.cmp(a)). -/
def sortDesc : List Int → List Int
  | [] => []
  | x :: xs => insertDesc x (sortDesc xs)

/-- isize::MAX on the 64-bit target. -/
def intMax : Int := 2 ^ 63 - 1

/-- isize::MIN on the 64-bit target. -/
def intMin : Int := -(2 ^ 63)

/-! ### Piece catalog (models/piece.rs) -/

inductive PieceType where
  | I | J | L | S | Z | T | O
  deriving DecidableEq

/-- The four rotation states of each tetromino, bottom-left origin,
transcribed from the I/J/L/S/Z/T/O rotation tables. -/
def PieceType.rotations : PieceType → List (List (Int × Int))
  | .I => [[(0, 0), (1, 0), (2, 0), (3, 0)],
           [(2, 0), (2, 1), (2, 2), (2, 3)],
           [(0, 1), (1, 1), (2, 1), (3, 1)],
           [(1, 0), (1, 1), (1, 2), (1, 3)]]
  | .J => [[(0, 0), (0, 1), (1, 1), (2, 1)],
           [(1, 0), (2, 0), (1, 1), (1, 2)],
           [(0, 1), (1, 1), (2, 1), (2, 2)],
           [(1, 0), (1, 1), (0, 2), (1, 2)]]
  | .L => [[(0, 1), (1, 1), (2, 1), (2, 0)],
           [(1, 0), (1, 1), (1, 2), (2, 2)],
           [(0, 1), (0, 2), (1, 1), (2, 1)],
           [(0, 0), (1, 0), (1, 1), (1, 2)]]
  | .S => [[(1, 0), (2, 0), (0, 1), (1, 1)],
           [(1, 0), (1, 1), (2, 1), (2, 2)],
           [(1, 1), (2, 1), (0, 2), (1, 2)],
           [(0, 0), (0, 1), (1, 1), (1, 2)]]
  | .Z => [[(0, 0), (1, 0), (1, 1), (2, 1)],
           [(2, 0), (1, 1), (2, 1), (1, 2)],
           [(0, 1), (1, 1), (1, 2), (2, 2)],
           [(1, 0), (0, 1), (1, 1), (0, 2)]]
  | .T => [[(0, 1), (1, 1), (2, 1), (1, 0)],
           [(1, 0), (1, 1), (1, 2), (2, 1)],
           [(0, 1), (1, 1), (2, 1), (1, 2)],
           [(0, 1), (1, 0), (1, 1), (1, 2)]]
  | .O => [[(0, 0), (1, 0), (0, 1), (1, 1)],
           [(0, 0), (1, 0), (0, 1), (1, 1)],
           [(0, 0), (1, 0), (0, 1), (1, 1)],
           [(0, 0), (1, 0), (0, 1), (1, 1)]]

def PieceType.rotation_count (t : PieceType) : Nat := t.rotations.length

/-- Rotation lookup; the source indexes rotations()[rot_idx % rotation_count()]. -/
def PieceType.get_rotation (t : PieceType) (rot_idx : Nat) : List (Int × Int) :=
  t.rotations.getD (rot_idx % t.rotation_count) []

/-- Minimum and maximum x offsets of a rotation (the source unwraps the
iterator min/max, which is safe since every rotation has four cells). -/
def PieceType.minmax_x (t : PieceType) (rot_idx : Nat) : Int × Int :=
  (listMinD ((t.get_rotation rot_idx).map Prod.fst) 0,
   listMaxD ((t.get_rotation rot_idx).map Prod.fst) 0)

/-- Maximum x offset of a rotation. -/
def PieceType.max_x (t : PieceType) (rot_idx : Nat) : Int :=
  listMaxD ((t.get_rotation rot_idx).map Prod.fst) 0

/-- Maximum y offset of a rotation. -/
def PieceType.max_y (t : PieceType) (rot_idx : Nat) : Int :=
  listMaxD ((t.get_rotation rot_idx).map Prod.snd) 0

/-- Per-column lowest y offset: initialized to isize::MAX per column of the
horizontal span and minimized cell by cell, as in the source. -/
def PieceType.skirt (t : PieceType) (rot_idx : Nat) : List Int :=
  let piece := t.get_rotation rot_idx
  let mm := t.minmax_x rot_idx
  let width := (mm.2 - mm.1 + 1).toNat
  piece.foldl
    (fun sk c =>
      let index := (c.1 - mm.1).toNat
      if c.2 < sk.getD index intMax then sk.set index c.2 else sk)
    (List.replicate width intMax)

def PieceType.ALL : List PieceType := [.I, .J, .L, .S, .Z, .T, .O]

def PieceType.from_idx (idx : Nat) : PieceType :=
  PieceType.ALL.getD (idx % PieceType.ALL.length) .I

/-! ### Piece instances (views/piece_instance.rs); the color field is a
rendering concern and is omitted, as are the drawing helpers. -/

inductive RotationDirection where
  | Cw | Ccw
  deriving DecidableEq

structure BoardPosition where
  x : Int
  y : Int
  deriving DecidableEq

structure PieceInstance where
  typ : PieceType
  rot_idx : Nat
  position : BoardPosition
  deriving DecidableEq

def PieceInstance.new (typ : PieceType) (position : BoardPosition) : PieceInstance :=
  { typ := typ, rot_idx := 0, position := position }

def PieceInstance.cells (p : PieceInstance) : List (Int × Int) :=
  p.typ.get_rotation p.rot_idx

/-- Rotation index update of PieceInstance::rotate. -/
def PieceInstance.rotate (p : PieceInstance) (direction : RotationDirection) : PieceInstance :=
  let count := p.typ.rotation_count
  let inx := match direction with
    | .Cw => (p.rot_idx + 1) % count
    | .Ccw => (p.rot_idx + count - 1) % count
  { p with rot_idx := inx }

/-! ### Board model (models/board.rs) -/

inductive PlaceResult where
  | PlaceOk | RowFilled | OutOfBounds | PlaceBad
  deriving DecidableEq

structure BoardState where
  grid : List Bool
  row_score : List Int
  col_score : List Int
  deriving DecidableEq

def BoardState.new (width height : Nat) : BoardState :=
  { grid := List.replicate (width * height) false,
    row_score := List.replicate height 0,
    col_score := List.replicate width 0 }

def BoardState.reset_row_score (s : BoardState) (row : Int) : BoardState :=
  { s with row_score := s.row_score.set row.toNat 0 }

/-- Increment a row score and return the new value together with the state. -/
def BoardState.update_row_score (s : BoardState) (pos : BoardPosition) : Int × BoardState :=
  let score := s.row_score.getD pos.y.toNat 0 + 1
  (score, { s with row_score := s.row_score.set pos.y.toNat score })

def BoardState.update_col_score (s : BoardState) (pos : BoardPosition) : BoardState :=
  if s.col_score.getD pos.x.toNat 0 ≤ pos.y then
    { s with col_score := s.col_score.set pos.x.toNat (pos.y + 1) }
  else s

structure Board where
  width : Int
  height : Int
  state : BoardState
  backup_state : BoardState
  saved_state : Option BoardState
  /-- Modelled from the spec: the scoring accumulator of the Board
  (the score field and its update methods are referenced by the game
  controller but absent from the available board source). -/
  score : Nat
  deriving DecidableEq

def Board.new (width height : Nat) : Board :=
  let prev_state := BoardState.new width height
  { width := (width : Int), height := (height : Int),
    state := prev_state, backup_state := prev_state, saved_state := none,
    score := 0 }

/-- Row-ordered 2D to 1D indexing with bounds checking. -/
def Board.idx (b : Board) (x y : Int) : Option Nat :=
  if x < 0 ∨ y < 0 ∨ b.width ≤ x ∨ b.height ≤ y then none
  else some (y * b.width + x).toNat

def Board.is_cell_filled (b : Board) (pos : BoardPosition) : Bool :=
  match b.idx pos.x pos.y with
  | some i => b.state.grid.getD i false
  | none => false

def Board.row_score (b : Board) (row : Int) : Option Int :=
  if b.height ≤ row ∨ row < 0 then none
  else some (b.state.row_score.getD row.toNat 0)

def Board.col_score (b : Board) (col : Int) : Option Int :=
  if b.width ≤ col ∨ col < 0 then none
  else some (b.state.col_score.getD col.toNat 0)

def Board.col_score_all (b : Board) : List Int := b.state.col_score

def Board.midpoint_x (b : Board) : Int := Int.tdiv b.width 2

def Board.save_state (b : Board) : Board :=
  { b with saved_state := some b.state }

def Board.resume_state (b : Board) : Board :=
  match b.saved_state with
  | some state => { b with state := state }
  | none => b

/-- Fill one grid cell and update the score caches, as Board::fill_cell. -/
def Board.fill_cell (b : Board) (pos : BoardPosition) : PlaceResult × Board :=
  match b.idx pos.x pos.y with
  | none => (.OutOfBounds, b)
  | some i =>
    let st := { b.state with grid := b.state.grid.set i true }
    let st := st.update_col_score pos
    let scored := st.update_row_score pos
    if scored.1 = b.width then (.RowFilled, { b with state := scored.2 })
    else (.PlaceOk, { b with state := scored.2 })

/-- The cell-validation loop at the top of Board::try_place: scan the cells
in order, reporting the first out-of-bounds or occupied cell. -/
def Board.place_scan (b : Board) (cells : List (Int × Int)) (pos : BoardPosition) : Option PlaceResult :=
  match cells with
  | [] => none
  | c :: rest =>
    let cell_pos : BoardPosition := ⟨pos.x + c.1, pos.y + c.2⟩
    if (b.idx cell_pos.x cell_pos.y).isNone then some .OutOfBounds
    else if b.is_cell_filled cell_pos then some .PlaceBad
    else b.place_scan rest pos

/-- The short-circuiting fill loop of Board::fills_row. -/
def Board.fills_row_go : Board → BoardPosition → List (Int × Int) → Bool × Board
  | b, _, [] => (false, b)
  | b, p, c :: rest =>
    let filled := b.fill_cell ⟨p.x + c.1, p.y + c.2⟩
    if filled.1 = .RowFilled then (true, filled.2)
    else Board.fills_row_go filled.2 p rest

def Board.fills_row (b : Board) (piece : PieceInstance) : Bool × Board :=
  Board.fills_row_go b piece.position piece.cells

/-- Board::try_place: validate the cells, then speculatively fill them on a
cloned state to detect a row fill, swapping the mutated state away again. -/
def Board.try_place (b : Board) (piece : PieceInstance) (board_pos : BoardPosition) : PlaceResult × Board :=
  match b.place_scan piece.cells board_pos with
  | some r => (r, b)
  | none =>
    let b1 := { b with backup_state := b.state }
    let test_piece := { piece with position := board_pos }
    let filled := b1.fills_row test_piece
    let b2 := filled.2
    let b3 := { b2 with state := b2.backup_state, backup_state := b2.state }
    if filled.1 then (.RowFilled, b3) else (.PlaceOk, b3)

/-- The filter_map loop of Board::commit_piece. -/
def Board.commit_piece_go : Board → BoardPosition → List (Int × Int) → List Int × Board
  | b, _, [] => ([], b)
  | b, p, c :: rest =>
    let cell_pos : BoardPosition := ⟨p.x + c.1, p.y + c.2⟩
    let filled := b.fill_cell cell_pos
    let next := Board.commit_piece_go filled.2 p rest
    (if filled.1 = .RowFilled then cell_pos.y :: next.1 else next.1, next.2)

/-- Commit all cells of a piece, returning the y indices of filled rows. -/
def Board.commit_piece (b : Board) (piece : PieceInstance) : Option (List Int) × Board :=
  let r := Board.commit_piece_go b piece.position piece.cells
  (if r.1.isEmpty then none else some r.1, r.2)

/-! ### Drop computation (models/board.rs) -/

/-- Board::is_below_overhang. -/
def Board.is_below_overhang (b : Board) (piece : PieceInstance) : Bool :=
  piece.cells.any fun c =>
    match b.col_score (piece.position.x + c.1) with
    | some score => piece.position.y + c.2 < score - 1
    | none => false

/-- The descent loop of Board::slow_calculate_drop.  The source loop is
bounded in practice by the piece leaving the grid; fuel makes that bound
explicit and none marks exhaustion. -/
def Board.slow_calculate_drop_go : Nat → Board → PieceInstance → BoardPosition → BoardPosition × PlaceResult → Option (BoardPosition × PlaceResult) × Board
  | 0, b, _, _, _ => (none, b)
  | fuel + 1, b, piece, test_pos, last =>
    let next_pos : BoardPosition := ⟨test_pos.x, test_pos.y - 1⟩
    let tried := b.try_place piece next_pos
    match tried.1 with
    | .PlaceOk => Board.slow_calculate_drop_go fuel tried.2 piece next_pos (next_pos, .PlaceOk)
    | .RowFilled => Board.slow_calculate_drop_go fuel tried.2 piece next_pos (next_pos, .RowFilled)
    | _ => (some last, tried.2)

def Board.slow_calculate_drop (b : Board) (piece : PieceInstance) (fuel : Nat) : Option (BoardPosition × PlaceResult) × Board :=
  Board.slow_calculate_drop_go fuel b piece piece.position (piece.position, .PlaceOk)

/-- The climb loop of Board::verify_drop_location: move up one row until the
placement is legal.  The source loop is unbounded and diverges when no legal
position exists; fuel exhaustion returns none. -/
def Board.verify_drop_location : Nat → Board → PieceInstance → BoardPosition → Option (BoardPosition × PlaceResult) × Board
  | 0, b, _, _ => (none, b)
  | fuel + 1, b, piece, pos =>
    let verification := b.try_place piece pos
    match verification.1 with
    | .PlaceOk => (some (pos, .PlaceOk), verification.2)
    | .RowFilled => (some (pos, .RowFilled), verification.2)
    | _ => Board.verify_drop_location fuel verification.2 piece ⟨pos.x, pos.y + 1⟩

/-- Board::calculate_drop: the fast skirt/col_score estimate with the
overhang pre-check and verification climb. -/
def Board.calculate_drop (b : Board) (piece : PieceInstance) (fuel : Nat) : Option (BoardPosition × PlaceResult) × Board :=
  if b.is_below_overhang piece then b.slow_calculate_drop piece fuel
  else
    let skirt := piece.typ.skirt piece.rot_idx
    let mm := piece.typ.minmax_x piece.rot_idx
    let max_required_y := (List.range (mm.2 - mm.1 + 1).toNat).foldl
      (fun (acc : Int) (x_offset : Nat) =>
        let board_x := piece.position.x + mm.1 + (x_offset : Int)
        if board_x < 0 ∨ b.width ≤ board_x then acc
        else
          let skirt_val := skirt.getD x_offset intMax
          let cscore := (b.col_score board_x).getD 0
          let required_y := if cscore = 0 then 0 - skirt_val else cscore - skirt_val
          if acc < required_y then required_y else acc)
      intMin
    Board.verify_drop_location fuel b piece ⟨piece.position.x, max_required_y⟩

/-! ### Row clearing (models/board.rs) -/

/-- Board::clear_row: blank every cell of a row and reset its score. -/
def Board.clear_row (b : Board) (row : Int) : Board :=
  let b := (intRange 0 b.width).foldl
    (fun b x =>
      match b.idx x row with
      | some i => { b with state.grid := b.state.grid.set i false }
      | none => b) b
  if 0 ≤ row ∧ row < b.height then { b with state := b.state.reset_row_score row }
  else b

/-- Board::slide_row_down: copy a row into the row slide_val below it. -/
def Board.slide_row_down (b : Board) (row slide_val : Int) : Board :=
  let target_y := row - slide_val
  let b := b.clear_row target_y
  let b := (intRange 0 b.width).foldl
    (fun b x =>
      let source_cell := b.is_cell_filled ⟨x, row⟩
      match b.idx x target_y with
      | some i => { b with state.grid := b.state.grid.set i source_cell }
      | none => b) b
  if row < b.height ∧ 0 ≤ target_y then
    { b with state.row_score :=
        b.state.row_score.set target_y.toNat (b.state.row_score.getD row.toNat 0) }
  else b

/-- Board::handle_sliding over a descending list of cleared rows. -/
def Board.handle_sliding (b : Board) (cleared_rows : List Int) : Board :=
  if cleared_rows.isEmpty then b
  else
    let highest_filled_row := listMaxD b.col_score_all b.height
    let min_cleared := listMinD cleared_rows 0
    let max_cleared := listMaxD cleared_rows b.height
    let count : Int := cleared_rows.length
    let b := (intRange min_cleared max_cleared).foldl
      (fun b row =>
        if cleared_rows.contains row then b
        else
          let slide_val : Int := (cleared_rows.filter (fun y => y < row)).length
          b.slide_row_down row slide_val) b
    (intRange (max_cleared + 1) highest_filled_row).foldl
      (fun b row => (b.slide_row_down row count).clear_row row) b

/-- The downward scan of Board::adjust_col_scores for one column, over the
descending list of candidate rows. -/
def Board.scan_col_height (b : Board) (x : Int) : List Int → Int
  | [] => 0
  | y :: ys => if b.is_cell_filled ⟨x, y⟩ then y + 1 else b.scan_col_height x ys

/-- Board::adjust_col_scores: recompute each nonzero column score by
scanning downward from the previous height or the lowest cleared row. -/
def Board.adjust_col_scores (b : Board) (lowest_cleared_row : Int) : Board :=
  (intRange 0 b.width).foldl
    (fun b x =>
      let cs := b.state.col_score.getD x.toNat 0
      if 0 < cs then
        let start_y := max (cs - 1) lowest_cleared_row
        let new_height := b.scan_col_height x (intRange 0 (start_y + 1)).reverse
        { b with state.col_score := b.state.col_score.set x.toNat new_height }
      else b) b

/-- Board::clear_rows: sort descending, slide, then fix the column scores. -/
def Board.clear_rows (b : Board) (rows : List Int) : Board :=
  let sorted_rows := sortDesc rows
  let b := b.handle_sliding sorted_rows
  match sorted_rows.getLast? with
  | some lowest_row => b.adjust_col_scores lowest_row
  | none => b

/-! ### Scoring accumulator, modelled from the spec.  The game controller
calls Board::score_piece, Board::score_cleared_rows and Board::score, which
are absent from the available board source; the spec fixes only that a
scoring accumulator exists and that the hard-drop flag affects scoring. -/

/-- Modelled from the spec: per-piece scoring with a hard-drop bonus. -/
def Board.score_piece (b : Board) (_piece : PieceInstance) (hard_drop : Bool) : Board :=
  { b with score := b.score + (if hard_drop then 2 else 1) }

/-- Modelled from the spec: scoring for a number of cleared rows. -/
def Board.score_cleared_rows (b : Board) (number_of_rows : Nat) : Board :=
  { b with score := b.score + number_of_rows }

/-! ### Wall kicks (models/wall_kick.rs) -/

def JLSZT_WALL_KICKS : List (List (Int × Int)) :=
  [[(0, 0), (-1, 0), (-1, 1), (0, -2), (-1, -2)],
   [(0, 0), (1, 0), (1, -1), (0, 2), (1, 2)],
   [(0, 0), (1, 0), (1, -1), (0, 2), (1, 2)],
   [(0, 0), (-1, 0), (-1, 1), (0, -2), (-1, -2)],
   [(0, 0), (1, 0), (1, 1), (0, -2), (1, -2)],
   [(0, 0), (-1, 0), (-1, -1), (0, 2), (-1, 2)],
   [(0, 0), (-1, 0), (-1, -1), (0, 2), (-1, 2)],
   [(0, 0), (1, 0), (1, 1), (0, -2), (1, -2)]]

def I_WALL_KICKS : List (List (Int × Int)) :=
  [[(0, 0), (-2, 0), (1, 0), (-2, -1), (1, 2)],
   [(0, 0), (2, 0), (-1, 0), (2, 1), (-1, -2)],
   [(0, 0), (-1, 0), (2, 0), (-1, 2), (2, -1)],
   [(0, 0), (1, 0), (-2, 0), (1, -2), (-2, 1)],
   [(0, 0), (2, 0), (-1, 0), (2, 1), (-1, -2)],
   [(0, 0), (-2, 0), (1, 0), (-2, -1), (1, 2)],
   [(0, 0), (1, 0), (-2, 0), (1, -2), (-2, 1)],
   [(0, 0), (-1, 0), (2, 0), (-1, 2), (2, -1)]]

def get_wall_kick_index (from_rot to_rot : Nat) : Nat :=
  match from_rot % 4, to_rot % 4 with
  | 0, 1 => 0
  | 1, 0 => 1
  | 1, 2 => 2
  | 2, 1 => 3
  | 2, 3 => 4
  | 3, 2 => 5
  | 3, 0 => 6
  | 0, 3 => 7
  | _, _ => 0

/-- Modelled from the spec: table selection for a piece category (the O
piece never kicks; the I piece has its own table). -/
def wall_kicks_for (t : PieceType) (i : Nat) : List (Int × Int) :=
  match t with
  | .I => I_WALL_KICKS.getD i []
  | .O => [(0, 0)]
  | _ => JLSZT_WALL_KICKS.getD i []

/-- The kick-attempt loop of the rotation test. -/
def Board.try_kicks : Board → PieceInstance → BoardPosition → List (Int × Int) → Option BoardPosition × Board
  | b, _, _, [] => (none, b)
  | b, rotated, pos, k :: rest =>
    let test_pos : BoardPosition := ⟨pos.x + k.1, pos.y + k.2⟩
    let tried := b.try_place rotated test_pos
    match tried.1 with
    | .PlaceOk => (some test_pos, tried.2)
    | .RowFilled => (some test_pos, tried.2)
    | _ => Board.try_kicks tried.2 rotated pos rest

/-- Modelled from the spec: Board::try_rotation is called by the controller
but absent from the available board source.  Per the spec it attempts the
rotated footprint at the current position and then each wall-kick offset in
table order, returning the first legal position. -/
def Board.try_rotation (b : Board) (piece : PieceInstance) (direction : RotationDirection) : Option BoardPosition × Board :=
  let count := piece.typ.rotation_count
  let from_rot := piece.rot_idx % count
  let to_rot := (match direction with
    | .Cw => piece.rot_idx + 1
    | .Ccw => piece.rot_idx + count - 1) % count
  let kicks := wall_kicks_for piece.typ (get_wall_kick_index from_rot to_rot)
  let rotated := { piece with rot_idx := to_rot }
  Board.try_kicks b rotated piece.position kicks

/-! ### Game timer (utils/timer.rs); f32 modeled as ℚ -/

structure Timer where
  duration : Rat
  elapsed : Rat
  paused : Bool
  deriving DecidableEq

def Timer.new (duration : Rat) : Timer :=
  { duration := duration, elapsed := 0, paused := false }

def Timer.reset (t : Timer) : Timer := { t with elapsed := 0 }

/-- Advance the timer; returns true (and auto-resets) when the duration is
reached, and ignores dt entirely while paused. -/
def Timer.tick (t : Timer) (dt : Rat) : Bool × Timer :=
  if t.paused then (false, t)
  else
    let elapsed := t.elapsed + dt
    if t.duration ≤ elapsed then (true, { t with elapsed := 0 })
    else (false, { t with elapsed := elapsed })

def Timer.pause (t : Timer) : Timer := { t with paused := true }

def Timer.resume (t : Timer) : Timer := { t with paused := false }

/-! ### Game controller (views/board_instance.rs).  The rendering-only
fields (id, screen location, cell size, colors) and the drawing methods are
omitted; the update state machine, input handling and timers are embedded.
The external random source is modelled from the spec as an integer in [0,7)
supplied per call (the source draws it from the graphics framework's RNG). -/

inductive GameState where
  | Ready
  | Falling
  | Locking (now : Bool) (hard_drop : Bool)
  | Clearing
  | GameOver
  | Frozen
  | Paused
  deriving DecidableEq

inductive PlayerInput where
  | L | R | HardDrop | Rotate | Pause | SaveState | ResumeState
  deriving DecidableEq

structure GameTimers where
  gravity : Timer
  lock : Timer
  clear_animation : Timer
  slide_animation : Timer
  game_over_animation : Timer
  deriving DecidableEq

def GameTimers.new (gravity_interval lock_delay clear_duration slide_duration game_over_duration : Rat) : GameTimers :=
  { gravity := Timer.new gravity_interval,
    lock := Timer.new lock_delay,
    clear_animation := Timer.new clear_duration,
    slide_animation := Timer.new slide_duration,
    game_over_animation := Timer.new game_over_duration }

def GameTimers.pause_all (t : GameTimers) : GameTimers :=
  { gravity := t.gravity.pause, lock := t.lock.pause,
    clear_animation := t.clear_animation.pause,
    slide_animation := t.slide_animation.pause,
    game_over_animation := t.game_over_animation.pause }

def GameTimers.resume_all (t : GameTimers) : GameTimers :=
  { gravity := t.gravity.resume, lock := t.lock.resume,
    clear_animation := t.clear_animation.resume,
    slide_animation := t.slide_animation.resume,
    game_over_animation := t.game_over_animation.resume }

def GameTimers.reset_all (t : GameTimers) : GameTimers :=
  { gravity := t.gravity.reset, lock := t.lock.reset,
    clear_animation := t.clear_animation.reset,
    slide_animation := t.slide_animation.reset,
    game_over_animation := t.game_over_animation.reset }

/-- The hard-coded animation durations of the controller. -/
def CLEAR_DURATION : Rat := 1
def SLIDE_DURATION : Rat := 3 / 20
def GAME_OVER_DURATION : Rat := 3

structure BoardInstance where
  board : Board
  game_state : GameState
  prev_game_state : Option GameState
  timers : GameTimers
  rows_to_clear : Option (List Int)
  active_piece : Option PieceInstance
  deriving DecidableEq

def BoardInstance.new (width height : Nat) (gravity_interval lock_delay : Rat) : BoardInstance :=
  { board := Board.new width height,
    game_state := .Ready,
    prev_game_state := none,
    timers := GameTimers.new gravity_interval lock_delay CLEAR_DURATION SLIDE_DURATION GAME_OVER_DURATION,
    rows_to_clear := none,
    active_piece := none }

/-- Modelled from the spec: next-piece selection from the externally
supplied integer in [0,7). -/
def BoardInstance.get_random_piece_type (_bi : BoardInstance) (rng : Nat) : PieceType :=
  PieceType.from_idx rng

/-- Spawn a new randomized piece at the top-centered spawn position and
report whether it can be placed. -/
def BoardInstance.spawn_new_piece (bi : BoardInstance) (rng : Nat) : Bool × BoardInstance :=
  let piece_type := bi.get_random_piece_type rng
  let spawn_pos : BoardPosition :=
    ⟨bi.board.midpoint_x - Int.tdiv (piece_type.max_x 0) 2,
     bi.board.height - piece_type.max_y 0 - 1⟩
  let new_piece := PieceInstance.new piece_type spawn_pos
  let tried := bi.board.try_place new_piece spawn_pos
  let can_place := tried.1 = .PlaceOk ∨ tried.1 = .RowFilled
  (can_place, { bi with board := tried.2, active_piece := some new_piece })

/-- BoardInstance::commit_piece: take the active piece and commit it. -/
def BoardInstance.commit_piece (bi : BoardInstance) : Option (List Int) × BoardInstance :=
  match bi.active_piece with
  | none => (none, { bi with active_piece := none })
  | some piece =>
    let r := bi.board.commit_piece piece
    (r.1, { bi with board := r.2, active_piece := none })

def BoardInstance.clear_rows (bi : BoardInstance) (rows : List Int) : BoardInstance :=
  { bi with board := bi.board.clear_rows rows }

def BoardInstance.score_piece (bi : BoardInstance) (hard_drop : Bool) : BoardInstance :=
  match bi.active_piece with
  | some piece => { bi with board := bi.board.score_piece piece hard_drop }
  | none => bi

def BoardInstance.score_rows (bi : BoardInstance) (number_of_rows : Nat) : BoardInstance :=
  { bi with board := bi.board.score_cleared_rows number_of_rows }

/-- Check that some cell of the piece sits on the board floor. -/
def BoardInstance.is_piece_at_bottom (piece : PieceInstance) : Bool :=
  piece.cells.any fun c => piece.position.y + c.2 = 0

def BoardInstance.try_piece_movement (bi : BoardInstance) (new_pos : BoardPosition) : Option PlaceResult × BoardInstance :=
  match bi.active_piece with
  | none => (none, bi)
  | some piece =>
    let tried := bi.board.try_place piece new_pos
    (some tried.1, { bi with board := tried.2 })

/-- Fuel handed to the drop search; the source climb loop is unbounded, and
this bound covers every position the loop can reach inside the grid. -/
def BoardInstance.drop_fuel (bi : BoardInstance) : Nat :=
  bi.board.height.toNat + 8

def BoardInstance.get_drop_location (bi : BoardInstance) : Option (BoardPosition × PlaceResult) × BoardInstance :=
  match bi.active_piece with
  | none => (none, bi)
  | some piece =>
    let r := bi.board.calculate_drop piece bi.drop_fuel
    (r.1, { bi with board := r.2 })

def BoardInstance.hard_drop (bi : BoardInstance) : BoardInstance :=
  match bi.get_drop_location with
  | (none, bi1) => bi1
  | (some (drop_pos, result), bi1) =>
    match bi1.active_piece with
    | none => bi1
    | some piece =>
      match result with
      | .PlaceOk =>
        { bi1 with active_piece := some { piece with position := drop_pos },
                   timers.lock := bi1.timers.lock.reset,
                   game_state := .Locking false true }
      | .RowFilled =>
        { bi1 with active_piece := some { piece with position := drop_pos },
                   game_state := .Locking true true }
      | _ => bi1

def BoardInstance.move_active_piece (bi : BoardInstance) (new_pos : BoardPosition) : BoardInstance :=
  match bi.try_piece_movement new_pos with
  | (none, bi1) => bi1
  | (some result, bi1) =>
    match bi1.active_piece with
    | none => bi1
    | some piece =>
      match result with
      | .PlaceOk => { bi1 with active_piece := some { piece with position := new_pos } }
      | .RowFilled =>
        { bi1 with active_piece := some { piece with position := new_pos },
                   game_state := .Locking true false }
      | _ => bi1

def BoardInstance.rotate_active_piece (bi : BoardInstance) : BoardInstance :=
  match bi.active_piece with
  | none => bi
  | some piece =>
    let r := bi.board.try_rotation piece .Cw
    match r.1 with
    | some new_pos =>
      { bi with board := r.2,
                active_piece := some { piece.rotate .Cw with position := new_pos } }
    | none => { bi with board := r.2 }

/-- BoardInstance::handle_pause.  The source compares game_state with the
custom equality that ignores the Locking payload, which the match mirrors. -/
def BoardInstance.handle_pause (bi : BoardInstance) : BoardInstance :=
  match bi.game_state with
  | .Paused =>
    { bi with game_state := bi.prev_game_state.getD .Ready,
              prev_game_state := none,
              timers := bi.timers.resume_all }
  | st =>
    { bi with prev_game_state := some st,
              game_state := .Paused,
              timers := bi.timers.pause_all }

def BoardInstance.handle_input (bi : BoardInstance) (input : PlayerInput) : BoardInstance :=
  match input with
  | .L =>
    match bi.active_piece with
    | some piece => bi.move_active_piece ⟨piece.position.x - 1, piece.position.y⟩
    | none => bi
  | .R =>
    match bi.active_piece with
    | some piece => bi.move_active_piece ⟨piece.position.x + 1, piece.position.y⟩
    | none => bi
  | .Rotate => bi.rotate_active_piece
  | .HardDrop => bi.hard_drop
  | .Pause => bi.handle_pause
  | _ => bi

/-- BoardInstance::handle_pause_input: the only inputs honored while
paused. -/
def BoardInstance.handle_pause_input (bi : BoardInstance) (input : PlayerInput) : BoardInstance :=
  match input with
  | .Pause => bi.handle_pause
  | .SaveState =>
    { bi with board := bi.board.save_state,
              active_piece := none,
              game_state := .Ready }
  | .ResumeState =>
    { bi with board := bi.board.resume_state,
              active_piece := none,
              game_state := .Ready }
  | _ => bi

/-- Optionally apply a player input, as the if-let at the top of the
Falling, Locking, Clearing, GameOver and Frozen arms. -/
def BoardInstance.handle_input_opt (bi : BoardInstance) (input : Option PlayerInput) : BoardInstance :=
  match input with
  | some i => bi.handle_input i
  | none => bi

/-- The commit step shared by the immediate and timed lock paths. -/
def BoardInstance.lock_commit (bi : BoardInstance) (hard_drop : Bool) : BoardInstance :=
  let bi := bi.score_piece hard_drop
  let r := bi.commit_piece
  let bi := { r.2 with rows_to_clear := r.1 }
  if bi.rows_to_clear.isSome then { bi with game_state := .Clearing }
  else { bi with game_state := .Ready }

/-- The gravity descent attempt of the Falling arm. -/
def BoardInstance.falling_gravity_step (bi : BoardInstance) : BoardInstance :=
  match bi.active_piece with
  | none => bi
  | some piece =>
    if BoardInstance.is_piece_at_bottom piece then
      { bi with game_state := .Locking false false }
    else
      let next_pos : BoardPosition := ⟨piece.position.x, piece.position.y - 1⟩
      let tried := bi.board.try_place piece next_pos
      let bi1 := { bi with board := tried.2 }
      match tried.1 with
      | .PlaceOk =>
        { bi1 with active_piece := some { piece with position := next_pos },
                   timers.gravity := bi1.timers.gravity.reset,
                   game_state := .Falling }
      | .RowFilled =>
        { bi1 with active_piece := some { piece with position := next_pos },
                   game_state := .Locking true false }
      | _ => { bi1 with game_state := .Locking false false }

/-- The mid-lock descent re-check of the Locking arm. -/
def BoardInstance.locking_fall_check (bi : BoardInstance) : BoardInstance :=
  match bi.active_piece with
  | none => bi
  | some piece =>
    if BoardInstance.is_piece_at_bottom piece then bi
    else
      let next_pos : BoardPosition := ⟨piece.position.x, piece.position.y - 1⟩
      let tried := bi.board.try_place piece next_pos
      let bi1 := { bi with board := tried.2 }
      if tried.1 = .PlaceOk then
        { bi1 with active_piece := some { piece with position := next_pos },
                   timers.lock := bi1.timers.lock.reset,
                   timers.gravity := bi1.timers.gravity.reset,
                   game_state := .Falling }
      else bi1

/-- BoardInstance::update: the per-tick game state machine. -/
def BoardInstance.update (bi : BoardInstance) (dt : Rat) (input : Option PlayerInput) (rng : Nat) : BoardInstance :=
  match bi.game_state with
  | .Ready =>
    let spawned := bi.spawn_new_piece rng
    if spawned.1 then
      { spawned.2 with timers := spawned.2.timers.reset_all, game_state := .Falling }
    else
      { spawned.2 with timers := spawned.2.timers.reset_all, game_state := .GameOver }
  | .Falling =>
    let bi := bi.handle_input_opt input
    let ticked := bi.timers.gravity.tick dt
    let bi := { bi with timers.gravity := ticked.2 }
    if ticked.1 then bi.falling_gravity_step else bi
  | .Locking now hard_drop =>
    if now then bi.lock_commit hard_drop
    else
      let bi := bi.handle_input_opt input
      let bi := bi.locking_fall_check
      let ticked := bi.timers.lock.tick dt
      let bi := { bi with timers.lock := ticked.2 }
      if ticked.1 then bi.lock_commit hard_drop else bi
  | .Clearing =>
    let bi := bi.handle_input_opt input
    let ticked := bi.timers.clear_animation.tick dt
    let bi := { bi with timers.clear_animation := ticked.2 }
    if ticked.1 then
      let bi := match bi.rows_to_clear with
        | some rows => ({ bi with rows_to_clear := none }.score_rows rows.length).clear_rows rows
        | none => bi
      { bi with timers.clear_animation := bi.timers.clear_animation.reset,
                game_state := .Ready }
    else bi
  | .GameOver =>
    let committed := bi.commit_piece
    let bi := committed.2
    let bi := bi.handle_input_opt input
    let ticked := bi.timers.game_over_animation.tick dt
    let bi := { bi with timers.game_over_animation := ticked.2 }
    if ticked.1 then { bi with game_state := .Frozen } else bi
  | .Frozen =>
    bi.handle_input_opt input
  | .Paused =>
    match input with
    | some i => bi.handle_pause_input i
    | none => bi

/-! ### Basic list access lemmas -/

lemma getD_set_self {α : Type} (l : List α) (i : Nat) (a d : α) (h : i < l.length) :
    (l.set i a).getD i d = a := by
  simp [List.getD, List.getElem?_set_self, h]

lemma getD_set_ne {α : Type} (l : List α) (i j : Nat) (a d : α) (h : i ≠ j) :
    (l.set i a).getD j d = l.getD j d := by
  simp [List.getD, List.getElem?_set_ne h]

lemma getD_replicate {α : Type} (n i : Nat) (a : α) :
    (List.replicate n a).getD i a = a := by
  simp [List.getD]

/-! ### Frame lemmas: the mutating board methods touch only the state -/

lemma PieceInstance.cells_set_position (p : PieceInstance) (q : BoardPosition) :
    ({ p with position := q } : PieceInstance).cells = p.cells := rfl

lemma Board.fill_cell_frame (b : Board) (pos : BoardPosition) :
    (b.fill_cell pos).2.width = b.width ∧ (b.fill_cell pos).2.height = b.height ∧
    (b.fill_cell pos).2.backup_state = b.backup_state ∧
    (b.fill_cell pos).2.saved_state = b.saved_state ∧
    (b.fill_cell pos).2.score = b.score := by
  unfold Board.fill_cell
  cases h : b.idx pos.x pos.y
  · simp [h]
  · simp [h, BoardState.update_row_score, BoardState.update_col_score]
    split_ifs <;> simp

lemma Board.fills_row_go_frame :
    ∀ (cells : List (Int × Int)) (b : Board) (p : BoardPosition),
    (Board.fills_row_go b p cells).2.width = b.width ∧
    (Board.fills_row_go b p cells).2.height = b.height ∧
    (Board.fills_row_go b p cells).2.backup_state = b.backup_state ∧
    (Board.fills_row_go b p cells).2.saved_state = b.saved_state ∧
    (Board.fills_row_go b p cells).2.score = b.score
  | [], b, p => by simp [Board.fills_row_go]
  | c :: rest, b, p => by
    have hf := Board.fill_cell_frame b ⟨p.x + c.1, p.y + c.2⟩
    have ih := Board.fills_row_go_frame rest (b.fill_cell ⟨p.x + c.1, p.y + c.2⟩).2 p
    simp only [Board.fills_row_go]
    split_ifs with hr
    · exact hf
    · exact ⟨by rw [ih.1, hf.1], by rw [ih.2.1, hf.2.1], by rw [ih.2.2.1, hf.2.2.1],
        by rw [ih.2.2.2.1, hf.2.2.2.1], by rw [ih.2.2.2.2, hf.2.2.2.2]⟩

/-- C9: Board::try_place leaves every observable component of the board --
the live state read by the accessors, the saved snapshot, the dimensions and
the score -- unchanged; only the internal backup scratch state may differ. -/
theorem C9_try_place_observably_pure (b : Board) (piece : PieceInstance) (pos : BoardPosition) :
    (b.try_place piece pos).2.state = b.state ∧
    (b.try_place piece pos).2.saved_state = b.saved_state ∧
    (b.try_place piece pos).2.width = b.width ∧
    (b.try_place piece pos).2.height = b.height ∧
    (b.try_place piece pos).2.score = b.score ∧
    (∀ p : BoardPosition, (b.try_place piece pos).2.is_cell_filled p = b.is_cell_filled p) ∧
    (∀ row : Int, (b.try_place piece pos).2.row_score row = b.row_score row) ∧
    (∀ col : Int, (b.try_place piece pos).2.col_score col = b.col_score col) := by
  have main : (b.try_place piece pos).2.state = b.state ∧
      (b.try_place piece pos).2.saved_state = b.saved_state ∧
      (b.try_place piece pos).2.width = b.width ∧
      (b.try_place piece pos).2.height = b.height ∧
      (b.try_place piece pos).2.score = b.score := by
    unfold Board.try_place
    cases h : b.place_scan piece.cells pos with
    | some r => simp [h]
    | none =>
      simp only [h]
      have hfr := Board.fills_row_go_frame piece.cells { b with backup_state := b.state } pos
      simp only [Board.fills_row, PieceInstance.cells_set_position] at *
      split_ifs <;>
        simp_all
  refine ⟨main.1, main.2.1, main.2.2.1, main.2.2.2.1, main.2.2.2.2, ?_, ?_, ?_⟩
  · intro p
    simp [Board.is_cell_filled, Board.idx, main.1, main.2.2.1, main.2.2.2.1]
  · intro row
    simp [Board.row_score, main.1, main.2.2.2.1]
  · intro col
    simp [Board.col_score, main.1, main.2.2.1]

/-- C7: the bounds-checked accessors treat any out-of-range coordinate,
negative or beyond the board extents, as unfilled or unavailable. -/
theorem C7_accessors_total (b : Board) (x y : Int) :
    ((x < 0 ∨ y < 0 ∨ b.width ≤ x ∨ b.height ≤ y) → b.is_cell_filled ⟨x, y⟩ = false) ∧
    ((y < 0 ∨ b.height ≤ y) → b.row_score y = none) ∧
    ((x < 0 ∨ b.width ≤ x) → b.col_score x = none) := by
  refine ⟨?_, ?_, ?_⟩
  · intro h
    simp only [Board.is_cell_filled, Board.idx]
    rw [if_pos (by tauto)]
  · intro h
    simp only [Board.row_score]
    rw [if_pos (by tauto)]
  · intro h
    simp only [Board.col_score]
    rw [if_pos (by tauto)]

/-- C7 witness: a concrete out-of-range query on a concrete board. -/
theorem C7_accessors_total_witness :
    (Board.new 4 4).is_cell_filled ⟨-1, 99⟩ = false ∧
    (Board.new 4 4).row_score 99 = none ∧
    (Board.new 4 4).col_score (-1) = none :=
  ⟨(C7_accessors_total (Board.new 4 4) (-1) 99).1 (by norm_num [Board.new]),
   (C7_accessors_total (Board.new 4 4) (-1) 99).2.1 (by norm_num [Board.new]),
   (C7_accessors_total (Board.new 4 4) (-1) 99).2.2 (by norm_num)⟩

/-- C5 counterexample: two clockwise rotations followed by one
counter-clockwise rotation of a T piece starting at rotation index 0 ends at
rotation index 1, not back at 0. -/
theorem C5_rotation_counterexample :
    ¬ ((((PieceInstance.new .T ⟨0, 0⟩).rotate .Cw).rotate .Cw).rotate .Ccw).rot_idx
      = (PieceInstance.new .T ⟨0, 0⟩).rot_idx % PieceType.T.rotation_count := by
  decide

/-- C5 amended: rotating twice in one direction and once in the opposite
direction nets exactly one rotation step in the first direction, for every
piece type and starting rotation index. -/
theorem C5_rotation_net_one_step (t : PieceType) (r : Nat) (pos : BoardPosition) :
    ((((⟨t, r, pos⟩ : PieceInstance).rotate .Cw).rotate .Cw).rotate .Ccw).rot_idx
      = ((⟨t, r, pos⟩ : PieceInstance).rotate .Cw).rot_idx ∧
    ((((⟨t, r, pos⟩ : PieceInstance).rotate .Ccw).rotate .Ccw).rotate .Cw).rot_idx
      = ((⟨t, r, pos⟩ : PieceInstance).rotate .Ccw).rot_idx := by
  cases t <;>
    simp [PieceInstance.rotate, PieceType.rotation_count, PieceType.rotations] <;>
    omega

/-- C8 counterexample: the constructors perform no validation; a
zero-duration timer and a zero-width board are returned as ordinary usable
objects rather than any error. -/
theorem C8_construction_counterexample :
    Timer.new 0 = { duration := 0, elapsed := 0, paused := false } ∧
    ((Timer.new 0).tick 1).1 = true ∧
    (Board.new 0 5).width = 0 ∧
    (Board.new 0 5).is_cell_filled ⟨0, 0⟩ = false := by
  refine ⟨rfl, ?_, rfl, rfl⟩
  simp [Timer.new, Timer.tick]

/-- C8 amended: construction is unvalidated; a zero-duration timer finishes
immediately on any nonnegative tick (auto-resetting to its initial state),
and a zero-width board is a usable object whose accessors report every
coordinate as out of range. -/
theorem C8_unvalidated_construction (dt : Rat) (hgt : Nat) (x y : Int) (h : 0 ≤ dt) :
    ((Timer.new 0).tick dt).1 = true ∧
    ((Timer.new 0).tick dt).2 = Timer.new 0 ∧
    (Board.new 0 hgt).is_cell_filled ⟨x, y⟩ = false ∧
    (Board.new 0 hgt).col_score x = none := by
  refine ⟨?_, ?_, ?_, ?_⟩
  · simp [Timer.new, Timer.tick, h]
  · simp [Timer.new, Timer.tick, h]
  · exact (C7_accessors_total (Board.new 0 hgt) x y).1 (by simp [Board.new]; omega)
  · exact (C7_accessors_total (Board.new 0 hgt) x y).2.2 (by simp [Board.new]; omega)

/-- C8 amended witness: the zero-duration timer at dt = 1 and a concrete
coordinate on the zero-width board. -/
theorem C8_unvalidated_construction_witness :
    ((Timer.new 0).tick 1).1 = true ∧
    ((Timer.new 0).tick 1).2 = Timer.new 0 ∧
    (Board.new 0 5).is_cell_filled ⟨2, 3⟩ = false ∧
    (Board.new 0 5).col_score 2 = none :=
  C8_unvalidated_construction 1 5 2 3 (by norm_num)

/-! ### C4: characterization of the try_place validation scan -/

/-- A cell of a piece at a candidate position is illegal when its absolute
position is out of bounds or already occupied. -/
def cellIllegal (b : Board) (pos : BoardPosition) (c : Int × Int) : Bool :=
  (b.idx (pos.x + c.1) (pos.y + c.2)).isNone ||
    b.is_cell_filled ⟨pos.x + c.1, pos.y + c.2⟩

lemma Board.place_scan_spec :
    ∀ (cells : List (Int × Int)) (b : Board) (pos : BoardPosition),
    (b.place_scan cells pos = some .OutOfBounds ↔
      ∃ c, cells.find? (cellIllegal b pos) = some c ∧
        b.idx (pos.x + c.1) (pos.y + c.2) = none) ∧
    (b.place_scan cells pos = some .PlaceBad ↔
      ∃ c, cells.find? (cellIllegal b pos) = some c ∧
        (b.idx (pos.x + c.1) (pos.y + c.2)).isSome ∧
        b.is_cell_filled ⟨pos.x + c.1, pos.y + c.2⟩ = true) ∧
    (b.place_scan cells pos = none ↔
      ∀ c ∈ cells, (b.idx (pos.x + c.1) (pos.y + c.2)).isSome ∧
        b.is_cell_filled ⟨pos.x + c.1, pos.y + c.2⟩ = false)
  | [], b, pos => by simp [Board.place_scan]
  | c :: rest, b, pos => by
    have ih := Board.place_scan_spec rest b pos
    by_cases h1 : (b.idx (pos.x + c.1) (pos.y + c.2)).isNone
    · have hill : cellIllegal b pos c = true := by simp [cellIllegal, h1]
      have hnone : b.idx (pos.x + c.1) (pos.y + c.2) = none :=
        Option.isNone_iff_eq_none.mp h1
      refine ⟨?_, ?_, ?_⟩
      · simp [Board.place_scan, h1, List.find?_cons_of_pos _ hill, hnone]
      · simp [Board.place_scan, h1, List.find?_cons_of_pos _ hill, hnone]
      · simp [Board.place_scan, h1, hnone]
    · by_cases h2 : b.is_cell_filled ⟨pos.x + c.1, pos.y + c.2⟩
      · have hill : cellIllegal b pos c = true := by simp [cellIllegal, h2]
        have hsome : (b.idx (pos.x + c.1) (pos.y + c.2)).isSome := by
          rw [Option.isSome_iff_ne_none]
          intro hn
          exact h1 (by simp [hn])
        have hscan : b.place_scan (c :: rest) pos = some .PlaceBad := by
          simp [Board.place_scan, h1, h2]
        refine ⟨?_, ?_, ?_⟩
        · rw [hscan]
          constructor
          · intro hcontra
            exact absurd hcontra (by simp)
          · rintro ⟨c', hc', hnone⟩
            rw [List.find?_cons_of_pos _ hill] at hc'
            injection hc' with hc'
            subst hc'
            exact absurd hsome (by simp [hnone])
        · rw [hscan]
          constructor
          · intro _
            exact ⟨c, List.find?_cons_of_pos _ hill, hsome, h2⟩
          · intro _
            rfl
        · rw [hscan]
          constructor
          · intro hcontra
            simp at hcontra
          · intro hall
            exact absurd (hall c (by simp)).2 (by simp [h2])
      · have hill : cellIllegal b pos c = false := by
          simp [cellIllegal, h2]
          exact Option.isSome_iff_ne_none.mpr (by simpa using h1)
        have hscan : b.place_scan (c :: rest) pos = b.place_scan rest pos := by
          simp [Board.place_scan, h1, h2]
        refine ⟨?_, ?_, ?_⟩
        · rw [hscan, List.find?_cons_of_neg _ (by simp [hill])]
          exact ih.1
        · rw [hscan, List.find?_cons_of_neg _ (by simp [hill])]
          exact ih.2.1
        · rw [hscan]
          rw [ih.2.2]
          constructor
          · intro hall
            intro c' hc'
            rcases List.mem_cons.mp hc' with rfl | hc'
            · exact ⟨Option.isSome_iff_ne_none.mpr (by simpa using h1), by simpa using h2⟩
            · exact hall c' hc'
          · intro hall c' hc'
            exact hall c' (List.mem_cons_of_mem _ hc')

/-- The validation scan can only report out-of-bounds or occupancy. -/
lemma Board.place_scan_cases :
    ∀ (cells : List (Int × Int)) (b : Board) (pos : BoardPosition) (r : PlaceResult),
    b.place_scan cells pos = some r → r = .OutOfBounds ∨ r = .PlaceBad
  | [], _, _, _ => by simp [Board.place_scan]
  | c :: rest, b, pos, r => by
    simp only [Board.place_scan]
    split_ifs with h1 h2
    · intro h
      exact Or.inl (by simpa using h.symm)
    · intro h
      exact Or.inr (by simpa using h.symm)
    · exact Board.place_scan_cases rest b pos r

lemma Board.try_place_fst (b : Board) (piece : PieceInstance) (pos : BoardPosition) :
    (b.try_place piece pos).1 =
      match b.place_scan piece.cells pos with
      | some r => r
      | none =>
        if (Board.fills_row_go { b with backup_state := b.state } pos piece.cells).1
        then .RowFilled else .PlaceOk := by
  unfold Board.try_place
  cases h : b.place_scan piece.cells pos
  · simp only [h, Board.fills_row, PieceInstance.cells_set_position]
    split_ifs <;> rfl
  · simp [h]

/-- C4: try_place scans the piece's cells in order; it reports OutOfBounds
exactly when the first illegal cell is out of bounds, PlaceBad exactly when
the first illegal cell is in bounds but occupied, and success (PlaceOk or
RowFilled) exactly when all cells are simultaneously in bounds and
unoccupied. -/
theorem C4_try_place_first_illegal (b : Board) (piece : PieceInstance) (pos : BoardPosition) :
    ((b.try_place piece pos).1 = .OutOfBounds ↔
      ∃ c, piece.cells.find? (cellIllegal b pos) = some c ∧
        b.idx (pos.x + c.1) (pos.y + c.2) = none) ∧
    ((b.try_place piece pos).1 = .PlaceBad ↔
      ∃ c, piece.cells.find? (cellIllegal b pos) = some c ∧
        (b.idx (pos.x + c.1) (pos.y + c.2)).isSome ∧
        b.is_cell_filled ⟨pos.x + c.1, pos.y + c.2⟩ = true) ∧
    (((b.try_place piece pos).1 = .PlaceOk ∨ (b.try_place piece pos).1 = .RowFilled) ↔
      ∀ c ∈ piece.cells, (b.idx (pos.x + c.1) (pos.y + c.2)).isSome ∧
        b.is_cell_filled ⟨pos.x + c.1, pos.y + c.2⟩ = false) := by
  have hspec := Board.place_scan_spec piece.cells b pos
  rw [Board.try_place_fst]
  cases h : b.place_scan piece.cells pos with
  | some r =>
    rcases Board.place_scan_cases piece.cells b pos r h with rfl | rfl
    · rw [h] at hspec
      refine ⟨by simpa using hspec.1, by simpa using hspec.2.1, ?_⟩
      simp only [← hspec.2.2]
      simp
    · rw [h] at hspec
      refine ⟨by simpa using hspec.1, by simpa using hspec.2.1, ?_⟩
      simp only [← hspec.2.2]
      simp
  | none =>
    rw [h] at hspec
    have hnone := hspec.2.2.mp rfl
    constructor
    · constructor
      · intro hr
        exfalso
        split_ifs at hr
      · rintro ⟨c, hc, hcnone⟩
        exact absurd ((hnone c (List.mem_of_find?_eq_some hc)).1)
          (by simp [hcnone])
    constructor
    · constructor
      · intro hr
        exfalso
        split_ifs at hr
      · rintro ⟨c, hc, _, hfill⟩
        exact absurd ((hnone c (List.mem_of_find?_eq_some hc)).2)
          (by simp [hfill])
    · constructor
      · intro _
        exact hnone
      · intro _
        split_ifs <;> simp

/-! ### C2: committing into the last gap of the bottom row, then clearing -/

/-- C2: on a 4x4 board whose bottom row is filled except (3,0), committing
the I piece whose only in-bounds cell covers (3,0) does return Some([0]),
but clear_rows([0]) then leaves the board bit-for-bit unchanged -- the
bottom row stays completely filled with row score 4 and column scores 1 --
instead of yielding the all-empty grid the specification requires.
handle_sliding clears cells only by sliding rows above the cleared range
down, so a cleared row with no filled rows above it is never blanked. -/
theorem C2_clear_rows_leaves_topmost_cleared_row :
    ((Board.new 4 4).commit_piece ⟨.I, 0, ⟨-1, 0⟩⟩).1 = none ∧
    (((Board.new 4 4).commit_piece ⟨.I, 0, ⟨-1, 0⟩⟩).2.row_score 0 = some 3) ∧
    ((((Board.new 4 4).commit_piece ⟨.I, 0, ⟨-1, 0⟩⟩).2.commit_piece ⟨.I, 0, ⟨3, 0⟩⟩).1
      = some [0]) ∧
    (((((Board.new 4 4).commit_piece ⟨.I, 0, ⟨-1, 0⟩⟩).2.commit_piece
        ⟨.I, 0, ⟨3, 0⟩⟩).2.clear_rows [0]).is_cell_filled ⟨0, 0⟩ = true) ∧
    (((((Board.new 4 4).commit_piece ⟨.I, 0, ⟨-1, 0⟩⟩).2.commit_piece
        ⟨.I, 0, ⟨3, 0⟩⟩).2.clear_rows [0]).row_score 0 = some 4) ∧
    (((((Board.new 4 4).commit_piece ⟨.I, 0, ⟨-1, 0⟩⟩).2.commit_piece
        ⟨.I, 0, ⟨3, 0⟩⟩).2.clear_rows [0]).col_score 0 = some 1) := by
  decide

/-! ### Spec-side counting and consistency of the score caches -/

/-- Spec-side: the exact number of filled cells in row y. -/
def rowCount (b : Board) (y : Int) : Nat :=
  ((Finset.range b.width.toNat).filter
    (fun x : Nat => b.is_cell_filled ⟨(x : Int), y⟩)).card

/-- Spec-side: one more than the highest filled y of column x, or 0 when the
column is empty. -/
def colHeight (b : Board) (x : Int) : Nat :=
  (Finset.range b.height.toNat).sup
    (fun y : Nat => if b.is_cell_filled ⟨x, (y : Int)⟩ then y + 1 else 0)

/-- The cached row scores agree with exact recomputation from the grid. -/
def RowConsistent (b : Board) : Prop :=
  ∀ y : Int, 0 ≤ y → y < b.height →
    b.state.row_score.getD y.toNat 0 = (rowCount b y : Int)

/-- The cached column scores agree with exact recomputation from the grid. -/
def ColConsistent (b : Board) : Prop :=
  ∀ x : Int, 0 ≤ x → x < b.width →
    b.state.col_score.getD x.toNat 0 = (colHeight b x : Int)

/-- Dimensional well-formedness of a board. -/
def Board.WF (b : Board) : Prop :=
  0 ≤ b.width ∧ 0 ≤ b.height ∧
  b.state.grid.length = (b.width * b.height).toNat ∧
  b.state.row_score.length = b.height.toNat ∧
  b.state.col_score.length = b.width.toNat

lemma Board.new_WF (w h : Nat) : (Board.new w h).WF := by
  refine ⟨by simp [Board.new], by simp [Board.new], ?_, ?_, ?_⟩
  · show (List.replicate (w * h) false).length = ((w : Int) * (h : Int)).toNat
    rw [← Nat.cast_mul, Int.toNat_natCast, List.length_replicate]
  · show (List.replicate h (0 : Int)).length = ((h : Int)).toNat
    simp
  · show (List.replicate w (0 : Int)).length = ((w : Int)).toNat
    simp

/-! ### Index lemmas -/

lemma Board.idx_eq_some {b : Board} {x y : Int} {i : Nat} :
    b.idx x y = some i ↔
      (0 ≤ x ∧ 0 ≤ y ∧ x < b.width ∧ y < b.height ∧ i = (y * b.width + x).toNat) := by
  constructor
  · intro hsome
    unfold Board.idx at hsome
    split_ifs at hsome with h
    push_neg at h
    injection hsome with hsome
    exact ⟨by omega, by omega, by omega, by omega, hsome.symm⟩
  · rintro ⟨h1, h2, h3, h4, rfl⟩
    unfold Board.idx
    rw [if_neg (by omega)]

lemma Board.idx_isSome_iff {b : Board} {x y : Int} :
    (b.idx x y).isSome ↔ (0 ≤ x ∧ 0 ≤ y ∧ x < b.width ∧ y < b.height) := by
  rcases h : b.idx x y with _ | i
  · unfold Board.idx at h
    split_ifs at h with hc
    simp
    omega
  · have := Board.idx_eq_some.mp h
    simp
    exact ⟨this.1, this.2.1, this.2.2.1, this.2.2.2.1⟩

lemma Board.idx_lt {b : Board} {x y : Int} {i : Nat} (hWF : b.WF)
    (h : b.idx x y = some i) : i < b.state.grid.length := by
  obtain ⟨h1, h2, h3, h4, rfl⟩ := Board.idx_eq_some.mp h
  rw [hWF.2.2.1]
  have hnn : 0 ≤ y * b.width + x := by
    have := mul_nonneg h2 hWF.1
    omega
  have hup : y * b.width + x < b.width * b.height := by
    have hstep : y * b.width + x < (y + 1) * b.width := by
      rw [add_mul, one_mul]
      omega
    have hle : (y + 1) * b.width ≤ b.height * b.width :=
      mul_le_mul_of_nonneg_right (by omega) hWF.1
    rw [mul_comm b.width b.height]
    omega
  omega

lemma Board.idx_inj {b : Board} {x y x' y' : Int} {i : Nat}
    (h1 : b.idx x y = some i) (h2 : b.idx x' y' = some i) : x = x' ∧ y = y' := by
  obtain ⟨a1, a2, a3, a4, ha⟩ := Board.idx_eq_some.mp h1
  obtain ⟨b1, b2, b3, b4, hb⟩ := Board.idx_eq_some.mp h2
  have hw : 0 < b.width := by omega
  have hnn : 0 ≤ y * b.width + x := by
    have := mul_nonneg a2 (le_of_lt hw)
    omega
  have hnn' : 0 ≤ y' * b.width + x' := by
    have := mul_nonneg b2 (le_of_lt hw)
    omega
  have heq : y * b.width + x = y' * b.width + x' := by omega
  have hx : x = x' := by
    have e1 : (x + y * b.width) % b.width = x % b.width :=
      Int.add_mul_emod_self
    have e2 : (x' + y' * b.width) % b.width = x' % b.width :=
      Int.add_mul_emod_self
    have e3 : x % b.width = x := Int.emod_eq_of_lt a1 a3
    have e4 : x' % b.width = x' := Int.emod_eq_of_lt b1 b3
    have : x + y * b.width = x' + y' * b.width := by omega
    rw [this] at e1
    omega
  refine ⟨hx, ?_⟩
  subst hx
  have : y * b.width = y' * b.width := by omega
  exact mul_right_cancel₀ (by omega) this

/-! ### Effect of fill_cell on the state -/

lemma Board.fill_cell_some {b : Board} {pos : BoardPosition} {i : Nat}
    (h : b.idx pos.x pos.y = some i) :
    (b.fill_cell pos).2.state.grid = b.state.grid.set i true ∧
    (b.fill_cell pos).2.state.row_score =
      b.state.row_score.set pos.y.toNat (b.state.row_score.getD pos.y.toNat 0 + 1) ∧
    (b.fill_cell pos).2.state.col_score =
      (if b.state.col_score.getD pos.x.toNat 0 ≤ pos.y
       then b.state.col_score.set pos.x.toNat (pos.y + 1)
       else b.state.col_score) ∧
    ((b.fill_cell pos).1 = .RowFilled ↔
      b.state.row_score.getD pos.y.toNat 0 + 1 = b.width) ∧
    ((b.fill_cell pos).1 = .RowFilled ∨ (b.fill_cell pos).1 = .PlaceOk) := by
  unfold Board.fill_cell
  simp only [h, BoardState.update_row_score, BoardState.update_col_score]
  split_ifs <;> simp_all

lemma Board.fill_cell_none {b : Board} {pos : BoardPosition}
    (h : b.idx pos.x pos.y = none) :
    b.fill_cell pos = (.OutOfBounds, b) := by
  unfold Board.fill_cell
  simp [h]

/-- Filling an in-bounds cell makes exactly that cell filled in addition to
the previously filled ones. -/
lemma Board.is_cell_filled_of_idx {b : Board} {p : BoardPosition} {j : Nat}
    (hp : b.idx p.x p.y = some j) :
    b.is_cell_filled p = b.state.grid.getD j false := by
  unfold Board.is_cell_filled
  rw [hp]

lemma Board.is_cell_filled_of_idx_none {b : Board} {p : BoardPosition}
    (hp : b.idx p.x p.y = none) : b.is_cell_filled p = false := by
  unfold Board.is_cell_filled
  rw [hp]

lemma Board.fill_cell_filled_iff {b : Board} {pos : BoardPosition} {i : Nat}
    (hWF : b.WF) (h : b.idx pos.x pos.y = some i) (p : BoardPosition) :
    ((b.fill_cell pos).2.is_cell_filled p = true ↔
      (b.is_cell_filled p = true ∨ (p.x = pos.x ∧ p.y = pos.y))) := by
  have hgrid := (Board.fill_cell_some h).1
  have hfr := Board.fill_cell_frame b pos
  have hidx : ∀ x y, (b.fill_cell pos).2.idx x y = b.idx x y := by
    intro x y
    unfold Board.idx
    rw [hfr.1, hfr.2.1]
  rcases hp : b.idx p.x p.y with _ | j
  · rw [Board.is_cell_filled_of_idx_none (by rw [hidx, hp]),
      Board.is_cell_filled_of_idx_none hp]
    constructor
    · intro hc
      cases hc
    · rintro (hc | ⟨hx, hy⟩)
      · cases hc
      · rw [hx, hy, h] at hp
        cases hp
  · rw [Board.is_cell_filled_of_idx (by rw [hidx, hp] : (b.fill_cell pos).2.idx p.x p.y = some j),
      Board.is_cell_filled_of_idx hp, hgrid]
    by_cases hij : j = i
    · subst hij
      have hpx := Board.idx_inj hp h
      rw [getD_set_self _ _ _ _ (Board.idx_lt hWF h)]
      simp [hpx]
    · rw [getD_set_ne _ _ _ _ _ (Ne.symm hij)]
      constructor
      · exact Or.inl
      · rintro (hc | ⟨hx, hy⟩)
        · exact hc
        · exfalso
          rw [hx, hy, h] at hp
          injection hp with hp
          exact hij hp.symm

/-- Filling an in-bounds previously-unfilled cell raises its row's exact
count by one and leaves every other row count unchanged. -/
lemma rowCount_fill {b : Board} {pos : BoardPosition} {i : Nat}
    (hWF : b.WF) (h : b.idx pos.x pos.y = some i)
    (hunf : b.is_cell_filled pos = false) :
    (∀ y : Int, y ≠ pos.y → rowCount (b.fill_cell pos).2 y = rowCount b y) ∧
    rowCount (b.fill_cell pos).2 pos.y = rowCount b pos.y + 1 := by
  have hfr := Board.fill_cell_frame b pos
  obtain ⟨hx0, hy0, hxw, hyh, _⟩ := Board.idx_eq_some.mp h
  constructor
  · intro y hy
    unfold rowCount
    rw [hfr.1]
    congr 1
    apply Finset.filter_congr
    intro x _
    have := Board.fill_cell_filled_iff hWF h ⟨(x : Int), y⟩
    simp only at this
    constructor
    · intro hc
      rcases this.mp (by simpa using hc) with hc' | ⟨_, hc'⟩
      · simpa using hc'
      · exact absurd hc' hy
    · intro hc
      simp only [decide_eq_true_eq] at *
      exact this.mpr (Or.inl hc)
  · unfold rowCount
    rw [hfr.1]
    have hsplit : (Finset.range b.width.toNat).filter
        (fun x : Nat => (b.fill_cell pos).2.is_cell_filled ⟨(x : Int), pos.y⟩) =
        insert pos.x.toNat ((Finset.range b.width.toNat).filter
          (fun x : Nat => b.is_cell_filled ⟨(x : Int), pos.y⟩)) := by
      ext x
      simp only [Finset.mem_filter, Finset.mem_insert, Finset.mem_range]
      constructor
      · rintro ⟨hxr, hfill⟩
        rcases (Board.fill_cell_filled_iff hWF h ⟨(x : Int), pos.y⟩).mp
            (by simpa using hfill) with hc | ⟨hc, _⟩
        · exact Or.inr ⟨hxr, by simpa using hc⟩
        · have hc2 : (x : Int) = pos.x := hc
          left
          omega
      · rintro (rfl | ⟨hxr, hfill⟩)
        · refine ⟨by omega, ?_⟩
          have := (Board.fill_cell_filled_iff hWF h ⟨(pos.x.toNat : Int), pos.y⟩).mpr
            (Or.inr ⟨show (pos.x.toNat : Int) = pos.x by omega, rfl⟩)
          simpa using this
        · refine ⟨hxr, ?_⟩
          have := (Board.fill_cell_filled_iff hWF h ⟨(x : Int), pos.y⟩).mpr
            (Or.inl (by simpa using hfill))
          simpa using this
    rw [hsplit, Finset.card_insert_of_not_mem]
    simp only [Finset.mem_filter, Finset.mem_range, not_and]
    intro _
    have : (⟨(pos.x.toNat : Int), pos.y⟩ : BoardPosition) = pos := by
      have : (pos.x.toNat : Int) = pos.x := by omega
      cases pos
      simp_all
    rw [this, hunf]
    simp

lemma Board.fill_cell_filled_eq_of_ne {b : Board} {pos : BoardPosition} {i : Nat}
    (hWF : b.WF) (h : b.idx pos.x pos.y = some i) (p : BoardPosition)
    (hne : ¬(p.x = pos.x ∧ p.y = pos.y)) :
    (b.fill_cell pos).2.is_cell_filled p = b.is_cell_filled p := by
  have hiff := Board.fill_cell_filled_iff hWF h p
  rcases hb : b.is_cell_filled p
  · rcases hb' : (b.fill_cell pos).2.is_cell_filled p
    · rfl
    · rcases hiff.mp hb' with hc | hc
      · rw [hb] at hc
        cases hc
      · exact absurd hc hne
  · exact hiff.mpr (Or.inl hb)

/-- Filling an in-bounds cell raises its column height to at least one more
than the cell's y, and leaves other column heights unchanged. -/
lemma colHeight_fill {b : Board} {pos : BoardPosition} {i : Nat}
    (hWF : b.WF) (h : b.idx pos.x pos.y = some i) :
    (∀ x : Int, x ≠ pos.x → colHeight (b.fill_cell pos).2 x = colHeight b x) ∧
    colHeight (b.fill_cell pos).2 pos.x = max (colHeight b pos.x) (pos.y.toNat + 1) := by
  have hfr := Board.fill_cell_frame b pos
  obtain ⟨hx0, hy0, hxw, hyh, _⟩ := Board.idx_eq_some.mp h
  constructor
  · intro x hx
    unfold colHeight
    rw [hfr.2.1]
    apply Finset.sup_congr rfl
    intro y _
    rw [Board.fill_cell_filled_eq_of_ne hWF h ⟨x, (y : Int)⟩ (by intro hc; exact hx hc.1)]
  · unfold colHeight
    rw [hfr.2.1]
    apply Nat.le_antisymm
    · apply Finset.sup_le
      intro y hy
      by_cases hfill : (b.fill_cell pos).2.is_cell_filled ⟨pos.x, (y : Int)⟩ = true
      · rw [if_pos hfill]
        rcases (Board.fill_cell_filled_iff hWF h ⟨pos.x, (y : Int)⟩).mp hfill with hc | ⟨_, hc⟩
        · have hle := Finset.le_sup
            (f := fun y : Nat => if b.is_cell_filled ⟨pos.x, (y : Int)⟩ = true then y + 1 else 0)
            hy
          simp only [hc, if_true] at hle
          exact le_trans hle (le_max_left _ _)
        · have : y = pos.y.toNat := by
            have hc2 : (y : Int) = pos.y := hc
            omega
          subst this
          exact le_max_right _ _
      · rw [if_neg hfill]
        exact Nat.zero_le _
    · apply max_le
      · apply Finset.sup_mono_fun
        intro y _
        by_cases hfill : b.is_cell_filled ⟨pos.x, (y : Int)⟩ = true
        · rw [if_pos hfill,
            if_pos ((Board.fill_cell_filled_iff hWF h ⟨pos.x, (y : Int)⟩).mpr (Or.inl hfill))]
        · rw [if_neg hfill]
          exact Nat.zero_le _
      · have hmem : pos.y.toNat ∈ Finset.range b.height.toNat := by
          rw [Finset.mem_range]
          omega
        have hfill : (b.fill_cell pos).2.is_cell_filled ⟨pos.x, (pos.y.toNat : Int)⟩ = true :=
          (Board.fill_cell_filled_iff hWF h ⟨pos.x, (pos.y.toNat : Int)⟩).mpr
            (Or.inr ⟨rfl, show ((pos.y.toNat : Nat) : Int) = pos.y by omega⟩)
        have hle := Finset.le_sup
          (f := fun y : Nat => if (b.fill_cell pos).2.is_cell_filled ⟨pos.x, (y : Int)⟩ = true
            then y + 1 else 0)
          hmem
        simp only [hfill, if_true] at hle
        exact hle

lemma Board.fill_cell_WF {b : Board} (pos : BoardPosition) (hWF : b.WF) :
    (b.fill_cell pos).2.WF := by
  rcases h : b.idx pos.x pos.y with _ | i
  · rw [Board.fill_cell_none h]
    exact hWF
  · have hs := Board.fill_cell_some h
    have hfr := Board.fill_cell_frame b pos
    refine ⟨hfr.1 ▸ hWF.1, hfr.2.1 ▸ hWF.2.1, ?_, ?_, ?_⟩
    · rw [hs.1, List.length_set, hfr.1, hfr.2.1]
      exact hWF.2.2.1
    · rw [hs.2.1, List.length_set, hfr.2.1]
      exact hWF.2.2.2.1
    · rw [hs.2.2.1, hfr.1]
      split_ifs <;> simp [List.length_set, hWF.2.2.2.2]

/-- Filling an in-bounds unoccupied cell preserves row consistency. -/
lemma rowConsistent_fill {b : Board} {pos : BoardPosition} {i : Nat}
    (hWF : b.WF) (h : b.idx pos.x pos.y = some i)
    (hunf : b.is_cell_filled pos = false) (hrow : RowConsistent b) :
    RowConsistent (b.fill_cell pos).2 := by
  have hfr := Board.fill_cell_frame b pos
  have hs := Board.fill_cell_some h
  have hrc := rowCount_fill hWF h hunf
  obtain ⟨hx0, hy0, hxw, hyh, _⟩ := Board.idx_eq_some.mp h
  intro y hy0' hyh'
  rw [hfr.2.1] at hyh'
  rw [hs.2.1]
  by_cases hyy : y = pos.y
  · subst hyy
    rw [getD_set_self _ _ _ _ (by rw [hWF.2.2.2.1]; omega), hrc.2,
      hrow pos.y hy0' hyh']
    push_cast
    ring
  · rw [getD_set_ne _ _ _ _ _ (by omega), hrc.1 y hyy, hrow y hy0' hyh']

/-- Filling an in-bounds cell preserves column consistency (whether or not
the cell was already filled). -/
lemma colConsistent_fill {b : Board} {pos : BoardPosition} {i : Nat}
    (hWF : b.WF) (h : b.idx pos.x pos.y = some i) (hcol : ColConsistent b) :
    ColConsistent (b.fill_cell pos).2 := by
  have hfr := Board.fill_cell_frame b pos
  have hs := Board.fill_cell_some h
  have hch := colHeight_fill hWF h
  obtain ⟨hx0, hy0, hxw, hyh, _⟩ := Board.idx_eq_some.mp h
  intro x hx0' hxw'
  rw [hfr.1] at hxw'
  rw [hs.2.2.1]
  by_cases hxx : x = pos.x
  · subst hxx
    have hold := hcol pos.x hx0' hxw'
    rw [hch.2]
    split_ifs with hcase
    · rw [getD_set_self _ _ _ _ (by rw [hWF.2.2.2.2]; omega)]
      have hnat : colHeight b pos.x ≤ pos.y.toNat := by
        rw [hold] at hcase
        omega
      rw [max_eq_right (by omega)]
      push_cast
      omega
    · have hnat : pos.y.toNat + 1 ≤ colHeight b pos.x := by
        rw [hold] at hcase
        omega
      rw [max_eq_left (by omega)]
      exact hcol pos.x hx0' hxw'
  · rw [hch.1 x hxx]
    split_ifs with hcase
    · rw [getD_set_ne _ _ _ _ _ (by omega)]
      exact hcol x hx0' hxw'
    · exact hcol x hx0' hxw'

/-! ### Committing a piece: consistency preservation and the returned rows -/

lemma Board.commit_go_preserves :
    ∀ (cells : List (Int × Int)) (b : Board) (pos : BoardPosition),
    b.WF → cells.Nodup →
    (∀ c ∈ cells, b.is_cell_filled ⟨pos.x + c.1, pos.y + c.2⟩ = false) →
    RowConsistent b → ColConsistent b →
    (Board.commit_piece_go b pos cells).2.WF ∧
    (Board.commit_piece_go b pos cells).2.width = b.width ∧
    (Board.commit_piece_go b pos cells).2.height = b.height ∧
    RowConsistent (Board.commit_piece_go b pos cells).2 ∧
    ColConsistent (Board.commit_piece_go b pos cells).2
  | [], b, pos => by
    intro hWF _ _ hrow hcol
    exact ⟨hWF, rfl, rfl, hrow, hcol⟩
  | c :: rest, b, pos => by
    intro hWF hnd hunf hrow hcol
    have hcnot := (List.nodup_cons.mp hnd).1
    have hndr := (List.nodup_cons.mp hnd).2
    rcases hidx : b.idx (pos.x + c.1) (pos.y + c.2) with _ | i
    · have hfc : b.fill_cell ⟨pos.x + c.1, pos.y + c.2⟩ = (.OutOfBounds, b) :=
        @Board.fill_cell_none b ⟨pos.x + c.1, pos.y + c.2⟩ hidx
      have ih := Board.commit_go_preserves rest b pos hWF hndr
        (fun c' hc' => hunf c' (List.mem_cons_of_mem _ hc')) hrow hcol
      simpa only [Board.commit_piece_go, hfc] using ih
    · have hunfc := hunf c (List.mem_cons_self _ _)
      have hWF1 := Board.fill_cell_WF (b := b) ⟨pos.x + c.1, pos.y + c.2⟩ hWF
      have hrow1 := @rowConsistent_fill b ⟨pos.x + c.1, pos.y + c.2⟩ i
        hWF hidx hunfc hrow
      have hcol1 := @colConsistent_fill b ⟨pos.x + c.1, pos.y + c.2⟩ i
        hWF hidx hcol
      have hfr := Board.fill_cell_frame b ⟨pos.x + c.1, pos.y + c.2⟩
      have hunf1 : ∀ c' ∈ rest,
          (b.fill_cell ⟨pos.x + c.1, pos.y + c.2⟩).2.is_cell_filled
            ⟨pos.x + c'.1, pos.y + c'.2⟩ = false := by
        intro c' hc'
        rw [@Board.fill_cell_filled_eq_of_ne b ⟨pos.x + c.1, pos.y + c.2⟩ i
          hWF hidx _ ?_]
        · exact hunf c' (List.mem_cons_of_mem _ hc')
        · rintro ⟨hx, hy⟩
          have h1 : pos.x + c'.1 = pos.x + c.1 := hx
          have h2 : pos.y + c'.2 = pos.y + c.2 := hy
          have : c' = c := by
            rcases c' with ⟨a1, a2⟩
            rcases c with ⟨d1, d2⟩
            simp only [Prod.mk.injEq] at h1 h2 ⊢
            constructor <;> omega
          rw [this] at hc'
          exact hcnot hc'
      have ih := Board.commit_go_preserves rest _ pos hWF1 hndr hunf1 hrow1 hcol1
      simp only [Board.commit_piece_go]
      exact ⟨ih.1, by rw [ih.2.1, hfr.1], by rw [ih.2.2.1, hfr.2.1],
        ih.2.2.2.1, ih.2.2.2.2⟩

lemma Board.commit_go_scores :
    ∀ (cells : List (Int × Int)) (b : Board) (pos : BoardPosition),
    b.WF →
    (∀ c ∈ cells, 0 ≤ pos.x + c.1 ∧ pos.x + c.1 < b.width ∧
      0 ≤ pos.y + c.2 ∧ pos.y + c.2 < b.height) →
    (Board.commit_piece_go b pos cells).2.WF ∧
    (Board.commit_piece_go b pos cells).2.width = b.width ∧
    (Board.commit_piece_go b pos cells).2.height = b.height ∧
    (∀ y : Int, 0 ≤ y →
      (Board.commit_piece_go b pos cells).2.state.row_score.getD y.toNat 0 =
        b.state.row_score.getD y.toNat 0 +
          ((cells.filter (fun c => pos.y + c.2 = y)).length : Int)) ∧
    (∀ y : Int, y ∈ (Board.commit_piece_go b pos cells).1 ↔
      (0 ≤ y ∧ b.state.row_score.getD y.toNat 0 < b.width ∧
        b.width ≤ (Board.commit_piece_go b pos cells).2.state.row_score.getD y.toNat 0)) ∧
    (Board.commit_piece_go b pos cells).1.Nodup
  | [], b, pos => by
    intro hWF _
    refine ⟨hWF, rfl, rfl, fun y _ => by simp [Board.commit_piece_go], fun y => ?_,
      by simp [Board.commit_piece_go]⟩
    simp [Board.commit_piece_go]
  | c :: rest, b, pos => by
    intro hWF hbnd
    have hbc := hbnd c (List.mem_cons_self _ _)
    have hbr : ∀ c' ∈ rest, 0 ≤ pos.x + c'.1 ∧ pos.x + c'.1 < b.width ∧
        0 ≤ pos.y + c'.2 ∧ pos.y + c'.2 < b.height :=
      fun c' hc' => hbnd c' (List.mem_cons_of_mem _ hc')
    have hidx : b.idx (pos.x + c.1) (pos.y + c.2) =
        some ((pos.y + c.2) * b.width + (pos.x + c.1)).toNat := by
      rw [Board.idx_eq_some]
      exact ⟨hbc.1, hbc.2.2.1, hbc.2.1, hbc.2.2.2, rfl⟩
    have hs := @Board.fill_cell_some b ⟨pos.x + c.1, pos.y + c.2⟩ _ hidx
    have hfr := Board.fill_cell_frame b ⟨pos.x + c.1, pos.y + c.2⟩
    have hWF1 := Board.fill_cell_WF (b := b) ⟨pos.x + c.1, pos.y + c.2⟩ hWF
    have hbr1 : ∀ c' ∈ rest, 0 ≤ pos.x + c'.1 ∧
        pos.x + c'.1 < (b.fill_cell ⟨pos.x + c.1, pos.y + c.2⟩).2.width ∧
        0 ≤ pos.y + c'.2 ∧
        pos.y + c'.2 < (b.fill_cell ⟨pos.x + c.1, pos.y + c.2⟩).2.height := by
      intro c' hc'
      rw [hfr.1, hfr.2.1]
      exact hbr c' hc'
    have ih := Board.commit_go_scores rest _ pos hWF1 hbr1
    have hS1 : ∀ y : Int, 0 ≤ y →
        (b.fill_cell ⟨pos.x + c.1, pos.y + c.2⟩).2.state.row_score.getD y.toNat 0 =
          b.state.row_score.getD y.toNat 0 + (if pos.y + c.2 = y then 1 else 0) := by
      intro y hy
      rw [hs.2.1]
      dsimp only
      by_cases hyy : y = pos.y + c.2
      · subst hyy
        rw [getD_set_self _ _ _ _ (by rw [hWF.2.2.2.1]; omega), if_pos rfl]
      · rw [getD_set_ne _ _ _ _ _ (by omega), if_neg (by omega)]
        omega
    have hRF : ((b.fill_cell ⟨pos.x + c.1, pos.y + c.2⟩).1 = PlaceResult.RowFilled ↔
        b.state.row_score.getD (pos.y + c.2).toNat 0 + 1 = b.width) := hs.2.2.2.1
    have hcount : ∀ y : Int,
        (((c :: rest).filter (fun c => pos.y + c.2 = y)).length : Int) =
          (if pos.y + c.2 = y then 1 else 0) +
            ((rest.filter (fun c => pos.y + c.2 = y)).length : Int) := by
      intro y
      rw [List.filter_cons]
      by_cases hcy : pos.y + c.2 = y
      · rw [if_pos (by simpa using hcy), if_pos hcy, List.length_cons]
        push_cast
        ring
      · rw [if_neg (by simpa using hcy), if_neg hcy]
        ring
    refine ⟨?_, ?_, ?_, ?_, ?_, ?_⟩
    · simpa only [Board.commit_piece_go] using ih.1
    · simp only [Board.commit_piece_go]
      rw [ih.2.1, hfr.1]
    · simp only [Board.commit_piece_go]
      rw [ih.2.2.1, hfr.2.1]
    · intro y hy
      simp only [Board.commit_piece_go]
      rw [ih.2.2.2.1 y hy, hS1 y hy, hcount y]
      ring
    · intro y
      simp only [Board.commit_piece_go]
      have hmem := ih.2.2.2.2.1 y
      rw [hfr.1] at hmem
      have hy0c : (0 : Int) ≤ pos.y + c.2 := hbc.2.2.1
      constructor
      · intro hin
        have hsplit : ((b.fill_cell ⟨pos.x + c.1, pos.y + c.2⟩).1 = PlaceResult.RowFilled ∧
            y = pos.y + c.2) ∨
            y ∈ (Board.commit_piece_go (b.fill_cell ⟨pos.x + c.1, pos.y + c.2⟩).2 pos rest).1 := by
          by_cases hrf : (b.fill_cell ⟨pos.x + c.1, pos.y + c.2⟩).1 = PlaceResult.RowFilled
          · rw [if_pos hrf] at hin
            rcases List.mem_cons.mp hin with h' | h'
            · exact Or.inl ⟨hrf, h'⟩
            · exact Or.inr h'
          · rw [if_neg hrf] at hin
            exact Or.inr hin
        rcases hsplit with ⟨hrf, rfl⟩ | hin'
        · have hw := hRF.mp hrf
          refine ⟨hy0c, by omega, ?_⟩
          have hev := ih.2.2.2.1 (pos.y + c.2) hy0c
          have h1 := hS1 (pos.y + c.2) hy0c
          rw [if_pos rfl] at h1
          have hlen : (0 : Int) ≤
              ((rest.filter (fun c' => pos.y + c'.2 = pos.y + c.2)).length : Int) := by
            positivity
          omega
        · have hm := hmem.mp hin'
          have h1 := hS1 y hm.1
          refine ⟨hm.1, ?_, hm.2.2⟩
          have := hm.2.1
          split_ifs at h1 <;> omega
      · rintro ⟨hy, hlt, hge⟩
        have h1 := hS1 y hy
        by_cases hyy : pos.y + c.2 = y
        · rw [if_pos hyy] at h1
          by_cases hw : b.state.row_score.getD (pos.y + c.2).toNat 0 + 1 = b.width
          · have hrf := hRF.mpr hw
            rw [if_pos hrf]
            apply List.mem_cons.mpr
            left
            omega
          · have hw2 : ¬ b.state.row_score.getD y.toNat 0 + 1 = b.width := by
              rw [← hyy]
              exact hw
            have hin' : y ∈ (Board.commit_piece_go
                (b.fill_cell ⟨pos.x + c.1, pos.y + c.2⟩).2 pos rest).1 := by
              rw [hmem]
              exact ⟨hy, by omega, hge⟩
            split_ifs
            · exact List.mem_cons_of_mem _ hin'
            · exact hin'
        · rw [if_neg hyy] at h1
          have hin' : y ∈ (Board.commit_piece_go
              (b.fill_cell ⟨pos.x + c.1, pos.y + c.2⟩).2 pos rest).1 := by
            rw [hmem]
            exact ⟨hy, by omega, hge⟩
          split_ifs with hrf
          · apply List.mem_cons.mpr
            right
            exact hin'
          · exact hin'
    · simp only [Board.commit_piece_go]
      split_ifs with hrf
      · refine List.nodup_cons.mpr ⟨?_, ih.2.2.2.2.2⟩
        intro hin
        have hm := (ih.2.2.2.2.1 (pos.y + c.2)).mp hin
        have hw := hRF.mp hrf
        have h1 := hS1 (pos.y + c.2) hm.1
        rw [if_pos rfl] at h1
        rw [hfr.1] at hm
        omega
      · exact ih.2.2.2.2.2

/-! ### Reachability by validated commits, and the C1 invariant -/

lemma PieceType.get_rotation_nodup (t : PieceType) (r : Nat) :
    (t.get_rotation r).Nodup := by
  unfold PieceType.get_rotation PieceType.rotation_count
  have h4 : r % 4 = 0 ∨ r % 4 = 1 ∨ r % 4 = 2 ∨ r % 4 = 3 := by omega
  cases t <;>
    · show (List.getD _ (r % 4) []).Nodup
      rcases h4 with h | h | h | h <;> rw [h] <;> decide

lemma Board.new_not_filled (w h : Nat) (p : BoardPosition) :
    (Board.new w h).is_cell_filled p = false := by
  unfold Board.is_cell_filled
  rcases hp : (Board.new w h).idx p.x p.y with _ | i
  · rfl
  · show (List.replicate (w * h) false).getD i false = false
    exact getD_replicate _ _ _

lemma rowCount_new (w h : Nat) (y : Int) : rowCount (Board.new w h) y = 0 := by
  unfold rowCount
  rw [Finset.card_eq_zero, Finset.filter_eq_empty_iff]
  intro x _
  rw [Board.new_not_filled]
  simp

lemma colHeight_new (w h : Nat) (x : Int) : colHeight (Board.new w h) x = 0 := by
  unfold colHeight
  apply Nat.le_antisymm
  · apply Finset.sup_le
    intro y _
    rw [Board.new_not_filled]
    simp
  · exact Nat.zero_le _

/-- Boards reachable from a freshly constructed board by committing pieces
none of whose cells land on an already-filled cell (cells that fall outside
the grid are permitted; fill_cell skips them). -/
inductive Reachable (w h : Nat) : Board → Prop where
  | init : Reachable w h (Board.new w h)
  | commit (b : Board) (p : PieceInstance)
      (hb : Reachable w h b)
      (hfree : ∀ c ∈ p.cells,
        b.is_cell_filled ⟨p.position.x + c.1, p.position.y + c.2⟩ = false) :
      Reachable w h (b.commit_piece p).2

lemma reachable_consistent {w h : Nat} {b : Board} (hreach : Reachable w h b) :
    b.WF ∧ b.width = (w : Int) ∧ b.height = (h : Int) ∧
    RowConsistent b ∧ ColConsistent b := by
  induction hreach with
  | init =>
    refine ⟨Board.new_WF w h, rfl, rfl, ?_, ?_⟩
    · intro y hy0 hyh
      rw [rowCount_new]
      show (List.replicate h (0 : Int)).getD y.toNat 0 = ((0 : Nat) : Int)
      rw [getD_replicate]
      simp
    · intro x hx0 hxw
      rw [colHeight_new]
      show (List.replicate w (0 : Int)).getD x.toNat 0 = ((0 : Nat) : Int)
      rw [getD_replicate]
      simp
  | commit b p hb hfree ih =>
    have hnd : p.cells.Nodup := PieceType.get_rotation_nodup p.typ p.rot_idx
    have hpr := Board.commit_go_preserves p.cells b p.position ih.1 hnd hfree
      ih.2.2.2.1 ih.2.2.2.2
    have h2 : (b.commit_piece p).2 = (Board.commit_piece_go b p.position p.cells).2 := by
      rfl
    rw [h2]
    exact ⟨hpr.1, by rw [hpr.2.1, ih.2.1], by rw [hpr.2.2.1, ih.2.2.1],
      hpr.2.2.2.1, hpr.2.2.2.2⟩

/-- C1 counterexample: on a 2x2 board, committing the O piece at the origin
twice in a row (the second commit overlaps the already-filled cells, which
commit_piece does not reject) drives row_score[0] to 4 although row 0 holds
exactly 2 filled cells, so the invariant fails for arbitrary sequences of
commit_piece calls. -/
theorem C1_overlap_counterexample :
    (((Board.new 2 2).commit_piece ⟨.O, 0, ⟨0, 0⟩⟩).2.commit_piece
        ⟨.O, 0, ⟨0, 0⟩⟩).2.row_score 0 = some 4 ∧
    rowCount (((Board.new 2 2).commit_piece ⟨.O, 0, ⟨0, 0⟩⟩).2.commit_piece
        ⟨.O, 0, ⟨0, 0⟩⟩).2 0 = 2 := by
  constructor
  · decide
  · decide

/-- C1 amended: starting from a freshly constructed board, after any
sequence of commit_piece calls in which no cell of a committed piece covers
an already-filled cell, row_score[y] equals the exact count of filled cells
in row y and col_score[x] equals 1 + the maximum filled y in column x (0
when the column is empty), for every in-range row y and column x. -/
theorem C1_scores_exact (w h : Nat) (b : Board) (y x : Int)
    (hreach : Reachable w h b)
    (hy0 : 0 ≤ y) (hyh : y < b.height) (hx0 : 0 ≤ x) (hxw : x < b.width) :
    b.row_score y = some (rowCount b y : Int) ∧
    b.col_score x = some (colHeight b x : Int) := by
  obtain ⟨hWF, _, _, hrow, hcol⟩ := reachable_consistent hreach
  constructor
  · unfold Board.row_score
    rw [if_neg (by omega)]
    exact congrArg some (hrow y hy0 hyh)
  · unfold Board.col_score
    rw [if_neg (by omega)]
    exact congrArg some (hcol x hx0 hxw)

/-- C1 witness: the board after one validated O-piece commit on a 2x2
board; both caches agree with exact recomputation at row 0 and column 0. -/
theorem C1_scores_exact_witness :
    ((Board.new 2 2).commit_piece ⟨.O, 0, ⟨0, 0⟩⟩).2.row_score 0 =
      some (rowCount ((Board.new 2 2).commit_piece ⟨.O, 0, ⟨0, 0⟩⟩).2 0 : Int) ∧
    ((Board.new 2 2).commit_piece ⟨.O, 0, ⟨0, 0⟩⟩).2.col_score 0 =
      some (colHeight ((Board.new 2 2).commit_piece ⟨.O, 0, ⟨0, 0⟩⟩).2 0 : Int) :=
  C1_scores_exact 2 2 _ 0 0
    (Reachable.commit _ _ Reachable.init (by decide))
    (by norm_num) (by decide) (by norm_num) (by decide)

/-! ### C10: the rows returned by commit_piece -/

lemma rowCount_le_width (b : Board) (y : Int) :
    (rowCount b y : Int) ≤ b.width ∨ b.width < 0 := by
  by_cases hw : 0 ≤ b.width
  · left
    have h1 : rowCount b y ≤ b.width.toNat := by
      calc rowCount b y ≤ (Finset.range b.width.toNat).card := Finset.card_filter_le _ _
        _ = b.width.toNat := Finset.card_range _
    omega
  · right
    omega

/-- The optional result of commit_piece carries exactly the list collected
by the fill loop. -/
lemma Board.commit_piece_rows (b : Board) (p : PieceInstance) :
    ((b.commit_piece p).1.getD []) = (Board.commit_piece_go b p.position p.cells).1 := by
  show ((if (Board.commit_piece_go b p.position p.cells).1.isEmpty then none
    else some (Board.commit_piece_go b p.position p.cells).1).getD []) = _
  split_ifs with he
  · simp [List.isEmpty_iff.mp he]
  · rfl

/-- C10 counterexample: on a 2x2 board with (0,0) pre-filled, committing the
O piece at the origin has all four cells in bounds and returns rows [0, 1],
yet row 0's score immediately after the call is 3, not the board width 2 --
the overlapping first cell double-counts.  So the claim fails without a
no-overlap hypothesis. -/
theorem C10_overlap_counterexample :
    ((((Board.new 2 2).commit_piece ⟨.I, 0, ⟨-3, 0⟩⟩).2.commit_piece
        ⟨.O, 0, ⟨0, 0⟩⟩).1 = some [0, 1]) ∧
    (((Board.new 2 2).commit_piece ⟨.I, 0, ⟨-3, 0⟩⟩).2.width = 2) ∧
    (∀ c ∈ (⟨.O, 0, ⟨0, 0⟩⟩ : PieceInstance).cells,
      (((Board.new 2 2).commit_piece ⟨.I, 0, ⟨-3, 0⟩⟩).2.idx (0 + c.1) (0 + c.2)).isSome) ∧
    ((((Board.new 2 2).commit_piece ⟨.I, 0, ⟨-3, 0⟩⟩).2.commit_piece
        ⟨.O, 0, ⟨0, 0⟩⟩).2.row_score 0 ≠ some 2) := by
  refine ⟨by decide, by decide, by decide, by decide⟩

/-- C10 amended: for a well-formed board whose score caches agree with the
grid, committing a piece whose cells are all in bounds and unoccupied
returns a duplicate-free list of row indices, and a row index y is in the
list exactly when this commit raised row y's score from below the board
width to exactly the board width; in particular every returned row has
row_score equal to the width immediately after the call. -/
theorem C10_commit_filled_rows (b : Board) (p : PieceInstance)
    (hWF : b.WF) (hrow : RowConsistent b) (hcol : ColConsistent b)
    (hbnd : ∀ c ∈ p.cells, 0 ≤ p.position.x + c.1 ∧ p.position.x + c.1 < b.width ∧
      0 ≤ p.position.y + c.2 ∧ p.position.y + c.2 < b.height)
    (hfree : ∀ c ∈ p.cells,
      b.is_cell_filled ⟨p.position.x + c.1, p.position.y + c.2⟩ = false) :
    ((b.commit_piece p).1.getD []).Nodup ∧
    (∀ y : Int, y ∈ (b.commit_piece p).1.getD [] ↔
      (0 ≤ y ∧ b.state.row_score.getD y.toNat 0 < b.width ∧
        (b.commit_piece p).2.state.row_score.getD y.toNat 0 = b.width)) := by
  have hnd : p.cells.Nodup := PieceType.get_rotation_nodup p.typ p.rot_idx
  have hsc := Board.commit_go_scores p.cells b p.position hWF hbnd
  have hpr := Board.commit_go_preserves p.cells b p.position hWF hnd hfree hrow hcol
  have h2 : (b.commit_piece p).2 = (Board.commit_piece_go b p.position p.cells).2 := rfl
  rw [Board.commit_piece_rows, h2]
  -- every row score after the commit is at most the width
  have hle : ∀ y : Int, 0 ≤ y →
      (Board.commit_piece_go b p.position p.cells).2.state.row_score.getD y.toNat 0
        ≤ b.width := by
    intro y hy
    by_cases hyh : y < b.height
    · have := hpr.2.2.2.1 y hy (by rw [hpr.2.2.1]; exact hyh)
      rw [this]
      rcases rowCount_le_width (Board.commit_piece_go b p.position p.cells).2 y with hc | hc
      · rw [hpr.2.1] at hc
        exact hc
      · rw [hpr.2.1] at hc
        have hw0 : 0 ≤ b.width := hWF.1
        omega
    · -- out-of-range rows are never touched: their stored score is the
      -- default 0 and the width is nonnegative
      have hzero :
          (Board.commit_piece_go b p.position p.cells).2.state.row_score.getD y.toNat 0 = 0 := by
        have hlen := hpr.1.2.2.2.1
        rw [hpr.2.2.1] at hlen
        apply List.getD_eq_default
        rw [hlen]
        omega
      rw [hzero]
      exact hWF.1
  refine ⟨hsc.2.2.2.2.2, ?_⟩
  intro y
  rw [hsc.2.2.2.2.1 y]
  constructor
  · rintro ⟨hy, hlt, hge⟩
    exact ⟨hy, hlt, le_antisymm (hle y hy) hge⟩
  · rintro ⟨hy, hlt, heq⟩
    exact ⟨hy, hlt, le_of_eq heq.symm⟩

/-- C10 witness: committing an O piece on an empty 2x2 board fills both rows
exactly; the returned list is [0, 1], duplicate-free, with both rows at
score 2 = width afterwards. -/
theorem C10_commit_filled_rows_witness :
    (((Board.new 2 2).commit_piece ⟨.O, 0, ⟨0, 0⟩⟩).1.getD []).Nodup ∧
    (∀ y : Int, y ∈ ((Board.new 2 2).commit_piece ⟨.O, 0, ⟨0, 0⟩⟩).1.getD [] ↔
      (0 ≤ y ∧ (Board.new 2 2).state.row_score.getD y.toNat 0 < (Board.new 2 2).width ∧
        ((Board.new 2 2).commit_piece ⟨.O, 0, ⟨0, 0⟩⟩).2.state.row_score.getD y.toNat 0
          = (Board.new 2 2).width)) :=
  C10_commit_filled_rows (Board.new 2 2) ⟨.O, 0, ⟨0, 0⟩⟩
    (Board.new_WF 2 2)
    (fun y hy0 hyh => by
      rw [rowCount_new]
      show (List.replicate 2 (0 : Int)).getD y.toNat 0 = ((0 : Nat) : Int)
      rw [getD_replicate]
      simp)
    (fun x hx0 hxw => by
      rw [colHeight_new]
      show (List.replicate 2 (0 : Int)).getD x.toNat 0 = ((0 : Nat) : Int)
      rw [getD_replicate]
      simp)
    (by decide) (by decide)

/-! ### C3: dropping onto an empty board -/

lemma Board.new_width (w h : Nat) : (Board.new w h).width = (w : Int) := rfl

lemma Board.new_height (w h : Nat) : (Board.new w h).height = (h : Int) := rfl

lemma Board.new_col_score (w h : Nat) (x : Int) (h0 : 0 ≤ x) (hw : x < (w : Int)) :
    (Board.new w h).col_score x = some 0 := by
  unfold Board.col_score
  rw [if_neg (by rw [Board.new_width]; omega)]
  congr 1
  show (List.replicate w (0 : Int)).getD x.toNat 0 = 0
  exact getD_replicate _ _ _

/-- With no overhang below the piece, calculate_drop is the fast-path
estimate handed to the verification climb. -/
lemma Board.calculate_drop_no_overhang (b : Board) (piece : PieceInstance) (fuel : Nat)
    (hover : b.is_below_overhang piece = false) :
    b.calculate_drop piece fuel =
      Board.verify_drop_location fuel b piece
        ⟨piece.position.x,
         (List.range ((piece.typ.minmax_x piece.rot_idx).2 -
            (piece.typ.minmax_x piece.rot_idx).1 + 1).toNat).foldl
           (fun (acc : Int) (x_offset : Nat) =>
             let board_x := piece.position.x +
               (piece.typ.minmax_x piece.rot_idx).1 + (x_offset : Int)
             if board_x < 0 ∨ b.width ≤ board_x then acc
             else
               let skirt_val := (piece.typ.skirt piece.rot_idx).getD x_offset intMax
               let cscore := (b.col_score board_x).getD 0
               let required_y := if cscore = 0 then 0 - skirt_val else cscore - skirt_val
               if acc < required_y then required_y else acc)
           intMin⟩ := by
  unfold Board.calculate_drop
  rw [if_neg (by rw [hover]; exact Bool.false_ne_true)]

/-- The generic empty-board drop argument, instantiated below for each
piece type and rotation with its concrete cell, skirt and span data. -/
theorem calculate_drop_empty_aux (w h : Nat) (px py : Int) (t : PieceType) (r : Nat)
    (cells : List (Int × Int)) (sk : List Int) (mindx maxdx y0 : Int) (fuel : Nat)
    (hcells : t.get_rotation r = cells)
    (hsk : t.skirt r = sk)
    (hmm : t.minmax_x r = (mindx, maxdx))
    (hy0 : (List.range (maxdx - mindx + 1).toNat).foldl
      (fun (acc : Int) (o : Nat) =>
        if acc < 0 - sk.getD o intMax then 0 - sk.getD o intMax else acc) intMin = y0)
    (hcols : ∀ o ∈ List.range (maxdx - mindx + 1).toNat, ∃ c ∈ cells, c.1 = mindx + (o : Int))
    (hmincell : ∃ cmin ∈ cells, y0 + cmin.2 = 0 ∧ ∀ c ∈ cells, cmin.2 ≤ c.2)
    (hin : ∀ c ∈ cells, 0 ≤ px + c.1 ∧ px + c.1 < (w : Int) ∧
      0 ≤ py + c.2 ∧ py + c.2 < (h : Int)) :
    ∃ res b',
      Board.calculate_drop (Board.new w h) ⟨t, r, ⟨px, py⟩⟩ (fuel + 1) =
        (some ((⟨px, y0⟩ : BoardPosition), res), b') ∧
      (res = .PlaceOk ∨ res = .RowFilled) ∧
      (∀ c ∈ cells, 0 ≤ y0 + c.2) ∧
      (∃ c ∈ cells, y0 + c.2 = 0) ∧
      (Board.new w h).place_scan cells ⟨px, y0⟩ = none := by
  have hww : (Board.new w h).width = (w : Int) := rfl
  have hhh : (Board.new w h).height = (h : Int) := rfl
  have hcellsI : (⟨t, r, ⟨px, py⟩⟩ : PieceInstance).cells = cells := hcells
  obtain ⟨cmin, hcmem, hcmin0, hcminle⟩ := hmincell
  have hge0 : ∀ c ∈ cells, 0 ≤ y0 + c.2 := by
    intro c hc
    have := hcminle c hc
    omega
  have hlth : ∀ c ∈ cells, y0 + c.2 < (h : Int) := by
    intro c hc
    have h1 := (hin c hc).2.2.2
    have h2 := (hin cmin hcmem).2.2.1
    have h3 := hcminle c hc
    omega
  -- no overhang on the empty board
  have hover : (Board.new w h).is_below_overhang ⟨t, r, ⟨px, py⟩⟩ = false := by
    unfold Board.is_below_overhang
    rw [List.any_eq_false]
    intro c hc
    rw [hcellsI] at hc
    have hb := hin c hc
    dsimp only
    rw [Board.new_col_score w h (px + c.1) hb.1 hb.2.1]
    simp
    omega
  -- the candidate cells are legal at the drop position
  have hscan : (Board.new w h).place_scan cells ⟨px, y0⟩ = none := by
    rw [(Board.place_scan_spec cells (Board.new w h) ⟨px, y0⟩).2.2]
    intro c hc
    have hb := hin c hc
    have hg := hge0 c hc
    have hl := hlth c hc
    refine ⟨?_, ?_⟩
    · rw [Board.idx_isSome_iff]
      dsimp only
      refine ⟨by omega, by omega, by omega, by omega⟩
    · rw [Board.new_not_filled]
  have htp : ((Board.new w h).try_place ⟨t, r, ⟨px, py⟩⟩ ⟨px, y0⟩).1 = .RowFilled ∨
      ((Board.new w h).try_place ⟨t, r, ⟨px, py⟩⟩ ⟨px, y0⟩).1 = .PlaceOk := by
    rw [Board.try_place_fst, hcellsI]
    simp only [hscan]
    split_ifs <;> simp
  -- the fast-path estimate equals y0
  have heq : Board.calculate_drop (Board.new w h) ⟨t, r, ⟨px, py⟩⟩ (fuel + 1) =
      Board.verify_drop_location (fuel + 1) (Board.new w h) ⟨t, r, ⟨px, py⟩⟩ ⟨px, y0⟩ := by
    rw [Board.calculate_drop_no_overhang _ _ _ hover]
    dsimp only
    rw [hmm]
    dsimp only
    rw [hsk]
    apply congrArg (Board.verify_drop_location (fuel + 1) (Board.new w h) ⟨t, r, ⟨px, py⟩⟩)
    apply congrArg (BoardPosition.mk px)
    refine Eq.trans (List.foldl_ext _
      (fun (acc : Int) (o : Nat) =>
        if acc < 0 - sk.getD o intMax then 0 - sk.getD o intMax else acc)
      intMin ?_) hy0
    intro acc o ho
    obtain ⟨c, hc, hcx⟩ := hcols o ho
    have hb := hin c hc
    dsimp only
    rw [if_neg (by rw [hww]; omega)]
    rw [Board.new_col_score w h (px + mindx + (o : Int)) (by omega) (by omega)]
    simp
  rcases htp with hh | hh
  · refine ⟨.RowFilled, ((Board.new w h).try_place ⟨t, r, ⟨px, py⟩⟩ ⟨px, y0⟩).2, ?_,
      Or.inr rfl, hge0, ⟨cmin, hcmem, hcmin0⟩, hscan⟩
    rw [heq]
    unfold Board.verify_drop_location
    simp only [hh]
  · refine ⟨.PlaceOk, ((Board.new w h).try_place ⟨t, r, ⟨px, py⟩⟩ ⟨px, y0⟩).2, ?_,
      Or.inl rfl, hge0, ⟨cmin, hcmem, hcmin0⟩, hscan⟩
    rw [heq]
    unfold Board.verify_drop_location
    simp only [hh]


/-- C3: for every piece type and rotation index, a piece positioned fully
inside a freshly constructed (empty) board drops, along its current column,
to a position where no cell is below row 0, some cell sits exactly at row 0,
and every cell is in bounds and unoccupied (the validation scan reports no
illegal cell), with the overall result PlaceOk or RowFilled. -/
theorem C3_drop_lands_on_floor (w h : Nat) (t : PieceType) (r : Nat) (px py : Int) (fuel : Nat)
    (hin : ∀ c ∈ t.get_rotation r, 0 ≤ px + c.1 ∧ px + c.1 < (w : Int) ∧
      0 ≤ py + c.2 ∧ py + c.2 < (h : Int)) :
    ∃ y0 res b',
      Board.calculate_drop (Board.new w h) ⟨t, r, ⟨px, py⟩⟩ (fuel + 1) =
        (some (⟨px, y0⟩, res), b') ∧
      (res = .PlaceOk ∨ res = .RowFilled) ∧
      (∀ c ∈ t.get_rotation r, 0 ≤ y0 + c.2) ∧
      (∃ c ∈ t.get_rotation r, y0 + c.2 = 0) ∧
      (Board.new w h).place_scan (t.get_rotation r) ⟨px, y0⟩ = none := by
  have h4 : r % 4 = 0 ∨ r % 4 = 1 ∨ r % 4 = 2 ∨ r % 4 = 3 := by omega
  cases t
  case I =>
    rcases h4 with hr | hr | hr | hr
    · have hcells : PieceType.I.get_rotation r = [(0, 0), (1, 0), (2, 0), (3, 0)] := by
        simp [PieceType.get_rotation, PieceType.rotation_count, PieceType.rotations, hr]
      have hmm : PieceType.I.minmax_x r = (0, 3) := by
        unfold PieceType.minmax_x
        rw [hcells]
        decide
      have hsk : PieceType.I.skirt r = [0, 0, 0, 0] := by
        unfold PieceType.skirt
        rw [hcells, hmm]
        decide
      rw [hcells] at hin ⊢
      exact ⟨0, calculate_drop_empty_aux w h px py .I r _ _ 0 3 0 fuel
        hcells hsk hmm (by decide) (by decide) (by decide) hin⟩
    · have hcells : PieceType.I.get_rotation r = [(2, 0), (2, 1), (2, 2), (2, 3)] := by
        simp [PieceType.get_rotation, PieceType.rotation_count, PieceType.rotations, hr]
      have hmm : PieceType.I.minmax_x r = (2, 2) := by
        unfold PieceType.minmax_x
        rw [hcells]
        decide
      have hsk : PieceType.I.skirt r = [0] := by
        unfold PieceType.skirt
        rw [hcells, hmm]
        decide
      rw [hcells] at hin ⊢
      exact ⟨0, calculate_drop_empty_aux w h px py .I r _ _ 2 2 0 fuel
        hcells hsk hmm (by decide) (by decide) (by decide) hin⟩
    · have hcells : PieceType.I.get_rotation r = [(0, 1), (1, 1), (2, 1), (3, 1)] := by
        simp [PieceType.get_rotation, PieceType.rotation_count, PieceType.rotations, hr]
      have hmm : PieceType.I.minmax_x r = (0, 3) := by
        unfold PieceType.minmax_x
        rw [hcells]
        decide
      have hsk : PieceType.I.skirt r = [1, 1, 1, 1] := by
        unfold PieceType.skirt
        rw [hcells, hmm]
        decide
      rw [hcells] at hin ⊢
      exact ⟨(-1 : Int), calculate_drop_empty_aux w h px py .I r _ _ 0 3 (-1 : Int) fuel
        hcells hsk hmm (by decide) (by decide) (by decide) hin⟩
    · have hcells : PieceType.I.get_rotation r = [(1, 0), (1, 1), (1, 2), (1, 3)] := by
        simp [PieceType.get_rotation, PieceType.rotation_count, PieceType.rotations, hr]
      have hmm : PieceType.I.minmax_x r = (1, 1) := by
        unfold PieceType.minmax_x
        rw [hcells]
        decide
      have hsk : PieceType.I.skirt r = [0] := by
        unfold PieceType.skirt
        rw [hcells, hmm]
        decide
      rw [hcells] at hin ⊢
      exact ⟨0, calculate_drop_empty_aux w h px py .I r _ _ 1 1 0 fuel
        hcells hsk hmm (by decide) (by decide) (by decide) hin⟩
  case J =>
    rcases h4 with hr | hr | hr | hr
    · have hcells : PieceType.J.get_rotation r = [(0, 0), (0, 1), (1, 1), (2, 1)] := by
        simp [PieceType.get_rotation, PieceType.rotation_count, PieceType.rotations, hr]
      have hmm : PieceType.J.minmax_x r = (0, 2) := by
        unfold PieceType.minmax_x
        rw [hcells]
        decide
      have hsk : PieceType.J.skirt r = [0, 1, 1] := by
        unfold PieceType.skirt
        rw [hcells, hmm]
        decide
      rw [hcells] at hin ⊢
      exact ⟨0, calculate_drop_empty_aux w h px py .J r _ _ 0 2 0 fuel
        hcells hsk hmm (by decide) (by decide) (by decide) hin⟩
    · have hcells : PieceType.J.get_rotation r = [(1, 0), (2, 0), (1, 1), (1, 2)] := by
        simp [PieceType.get_rotation, PieceType.rotation_count, PieceType.rotations, hr]
      have hmm : PieceType.J.minmax_x r = (1, 2) := by
        unfold PieceType.minmax_x
        rw [hcells]
        decide
      have hsk : PieceType.J.skirt r = [0, 0] := by
        unfold PieceType.skirt
        rw [hcells, hmm]
        decide
      rw [hcells] at hin ⊢
      exact ⟨0, calculate_drop_empty_aux w h px py .J r _ _ 1 2 0 fuel
        hcells hsk hmm (by decide) (by decide) (by decide) hin⟩
    · have hcells : PieceType.J.get_rotation r = [(0, 1), (1, 1), (2, 1), (2, 2)] := by
        simp [PieceType.get_rotation, PieceType.rotation_count, PieceType.rotations, hr]
      have hmm : PieceType.J.minmax_x r = (0, 2) := by
        unfold PieceType.minmax_x
        rw [hcells]
        decide
      have hsk : PieceType.J.skirt r = [1, 1, 1] := by
        unfold PieceType.skirt
        rw [hcells, hmm]
        decide
      rw [hcells] at hin ⊢
      exact ⟨(-1 : Int), calculate_drop_empty_aux w h px py .J r _ _ 0 2 (-1 : Int) fuel
        hcells hsk hmm (by decide) (by decide) (by decide) hin⟩
    · have hcells : PieceType.J.get_rotation r = [(1, 0), (1, 1), (0, 2), (1, 2)] := by
        simp [PieceType.get_rotation, PieceType.rotation_count, PieceType.rotations, hr]
      have hmm : PieceType.J.minmax_x r = (0, 1) := by
        unfold PieceType.minmax_x
        rw [hcells]
        decide
      have hsk : PieceType.J.skirt r = [2, 0] := by
        unfold PieceType.skirt
        rw [hcells, hmm]
        decide
      rw [hcells] at hin ⊢
      exact ⟨0, calculate_drop_empty_aux w h px py .J r _ _ 0 1 0 fuel
        hcells hsk hmm (by decide) (by decide) (by decide) hin⟩
  case L =>
    rcases h4 with hr | hr | hr | hr
    · have hcells : PieceType.L.get_rotation r = [(0, 1), (1, 1), (2, 1), (2, 0)] := by
        simp [PieceType.get_rotation, PieceType.rotation_count, PieceType.rotations, hr]
      have hmm : PieceType.L.minmax_x r = (0, 2) := by
        unfold PieceType.minmax_x
        rw [hcells]
        decide
      have hsk : PieceType.L.skirt r = [1, 1, 0] := by
        unfold PieceType.skirt
        rw [hcells, hmm]
        decide
      rw [hcells] at hin ⊢
      exact ⟨0, calculate_drop_empty_aux w h px py .L r _ _ 0 2 0 fuel
        hcells hsk hmm (by decide) (by decide) (by decide) hin⟩
    · have hcells : PieceType.L.get_rotation r = [(1, 0), (1, 1), (1, 2), (2, 2)] := by
        simp [PieceType.get_rotation, PieceType.rotation_count, PieceType.rotations, hr]
      have hmm : PieceType.L.minmax_x r = (1, 2) := by
        unfold PieceType.minmax_x
        rw [hcells]
        decide
      have hsk : PieceType.L.skirt r = [0, 2] := by
        unfold PieceType.skirt
        rw [hcells, hmm]
        decide
      rw [hcells] at hin ⊢
      exact ⟨0, calculate_drop_empty_aux w h px py .L r _ _ 1 2 0 fuel
        hcells hsk hmm (by decide) (by decide) (by decide) hin⟩
    · have hcells : PieceType.L.get_rotation r = [(0, 1), (0, 2), (1, 1), (2, 1)] := by
        simp [PieceType.get_rotation, PieceType.rotation_count, PieceType.rotations, hr]
      have hmm : PieceType.L.minmax_x r = (0, 2) := by
        unfold PieceType.minmax_x
        rw [hcells]
        decide
      have hsk : PieceType.L.skirt r = [1, 1, 1] := by
        unfold PieceType.skirt
        rw [hcells, hmm]
        decide
      rw [hcells] at hin ⊢
      exact ⟨(-1 : Int), calculate_drop_empty_aux w h px py .L r _ _ 0 2 (-1 : Int) fuel
        hcells hsk hmm (by decide) (by decide) (by decide) hin⟩
    · have hcells : PieceType.L.get_rotation r = [(0, 0), (1, 0), (1, 1), (1, 2)] := by
        simp [PieceType.get_rotation, PieceType.rotation_count, PieceType.rotations, hr]
      have hmm : PieceType.L.minmax_x r = (0, 1) := by
        unfold PieceType.minmax_x
        rw [hcells]
        decide
      have hsk : PieceType.L.skirt r = [0, 0] := by
        unfold PieceType.skirt
        rw [hcells, hmm]
        decide
      rw [hcells] at hin ⊢
      exact ⟨0, calculate_drop_empty_aux w h px py .L r _ _ 0 1 0 fuel
        hcells hsk hmm (by decide) (by decide) (by decide) hin⟩
  case S =>
    rcases h4 with hr | hr | hr | hr
    · have hcells : PieceType.S.get_rotation r = [(1, 0), (2, 0), (0, 1), (1, 1)] := by
        simp [PieceType.get_rotation, PieceType.rotation_count, PieceType.rotations, hr]
      have hmm : PieceType.S.minmax_x r = (0, 2) := by
        unfold PieceType.minmax_x
        rw [hcells]
        decide
      have hsk : PieceType.S.skirt r = [1, 0, 0] := by
        unfold PieceType.skirt
        rw [hcells, hmm]
        decide
      rw [hcells] at hin ⊢
      exact ⟨0, calculate_drop_empty_aux w h px py .S r _ _ 0 2 0 fuel
        hcells hsk hmm (by decide) (by decide) (by decide) hin⟩
    · have hcells : PieceType.S.get_rotation r = [(1, 0), (1, 1), (2, 1), (2, 2)] := by
        simp [PieceType.get_rotation, PieceType.rotation_count, PieceType.rotations, hr]
      have hmm : PieceType.S.minmax_x r = (1, 2) := by
        unfold PieceType.minmax_x
        rw [hcells]
        decide
      have hsk : PieceType.S.skirt r = [0, 1] := by
        unfold PieceType.skirt
        rw [hcells, hmm]
        decide
      rw [hcells] at hin ⊢
      exact ⟨0, calculate_drop_empty_aux w h px py .S r _ _ 1 2 0 fuel
        hcells hsk hmm (by decide) (by decide) (by decide) hin⟩
    · have hcells : PieceType.S.get_rotation r = [(1, 1), (2, 1), (0, 2), (1, 2)] := by
        simp [PieceType.get_rotation, PieceType.rotation_count, PieceType.rotations, hr]
      have hmm : PieceType.S.minmax_x r = (0, 2) := by
        unfold PieceType.minmax_x
        rw [hcells]
        decide
      have hsk : PieceType.S.skirt r = [2, 1, 1] := by
        unfold PieceType.skirt
        rw [hcells, hmm]
        decide
      rw [hcells] at hin ⊢
      exact ⟨(-1 : Int), calculate_drop_empty_aux w h px py .S r _ _ 0 2 (-1 : Int) fuel
        hcells hsk hmm (by decide) (by decide) (by decide) hin⟩
    · have hcells : PieceType.S.get_rotation r = [(0, 0), (0, 1), (1, 1), (1, 2)] := by
        simp [PieceType.get_rotation, PieceType.rotation_count, PieceType.rotations, hr]
      have hmm : PieceType.S.minmax_x r = (0, 1) := by
        unfold PieceType.minmax_x
        rw [hcells]
        decide
      have hsk : PieceType.S.skirt r = [0, 1] := by
        unfold PieceType.skirt
        rw [hcells, hmm]
        decide
      rw [hcells] at hin ⊢
      exact ⟨0, calculate_drop_empty_aux w h px py .S r _ _ 0 1 0 fuel
        hcells hsk hmm (by decide) (by decide) (by decide) hin⟩
  case Z =>
    rcases h4 with hr | hr | hr | hr
    · have hcells : PieceType.Z.get_rotation r = [(0, 0), (1, 0), (1, 1), (2, 1)] := by
        simp [PieceType.get_rotation, PieceType.rotation_count, PieceType.rotations, hr]
      have hmm : PieceType.Z.minmax_x r = (0, 2) := by
        unfold PieceType.minmax_x
        rw [hcells]
        decide
      have hsk : PieceType.Z.skirt r = [0, 0, 1] := by
        unfold PieceType.skirt
        rw [hcells, hmm]
        decide
      rw [hcells] at hin ⊢
      exact ⟨0, calculate_drop_empty_aux w h px py .Z r _ _ 0 2 0 fuel
        hcells hsk hmm (by decide) (by decide) (by decide) hin⟩
    · have hcells : PieceType.Z.get_rotation r = [(2, 0), (1, 1), (2, 1), (1, 2)] := by
        simp [PieceType.get_rotation, PieceType.rotation_count, PieceType.rotations, hr]
      have hmm : PieceType.Z.minmax_x r = (1, 2) := by
        unfold PieceType.minmax_x
        rw [hcells]
        decide
      have hsk : PieceType.Z.skirt r = [1, 0] := by
        unfold PieceType.skirt
        rw [hcells, hmm]
        decide
      rw [hcells] at hin ⊢
      exact ⟨0, calculate_drop_empty_aux w h px py .Z r _ _ 1 2 0 fuel
        hcells hsk hmm (by decide) (by decide) (by decide) hin⟩
    · have hcells : PieceType.Z.get_rotation r = [(0, 1), (1, 1), (1, 2), (2, 2)] := by
        simp [PieceType.get_rotation, PieceType.rotation_count, PieceType.rotations, hr]
      have hmm : PieceType.Z.minmax_x r = (0, 2) := by
        unfold PieceType.minmax_x
        rw [hcells]
        decide
      have hsk : PieceType.Z.skirt r = [1, 1, 2] := by
        unfold PieceType.skirt
        rw [hcells, hmm]
        decide
      rw [hcells] at hin ⊢
      exact ⟨(-1 : Int), calculate_drop_empty_aux w h px py .Z r _ _ 0 2 (-1 : Int) fuel
        hcells hsk hmm (by decide) (by decide) (by decide) hin⟩
    · have hcells : PieceType.Z.get_rotation r = [(1, 0), (0, 1), (1, 1), (0, 2)] := by
        simp [PieceType.get_rotation, PieceType.rotation_count, PieceType.rotations, hr]
      have hmm : PieceType.Z.minmax_x r = (0, 1) := by
        unfold PieceType.minmax_x
        rw [hcells]
        decide
      have hsk : PieceType.Z.skirt r = [1, 0] := by
        unfold PieceType.skirt
        rw [hcells, hmm]
        decide
      rw [hcells] at hin ⊢
      exact ⟨0, calculate_drop_empty_aux w h px py .Z r _ _ 0 1 0 fuel
        hcells hsk hmm (by decide) (by decide) (by decide) hin⟩
  case T =>
    rcases h4 with hr | hr | hr | hr
    · have hcells : PieceType.T.get_rotation r = [(0, 1), (1, 1), (2, 1), (1, 0)] := by
        simp [PieceType.get_rotation, PieceType.rotation_count, PieceType.rotations, hr]
      have hmm : PieceType.T.minmax_x r = (0, 2) := by
        unfold PieceType.minmax_x
        rw [hcells]
        decide
      have hsk : PieceType.T.skirt r = [1, 0, 1] := by
        unfold PieceType.skirt
        rw [hcells, hmm]
        decide
      rw [hcells] at hin ⊢
      exact ⟨0, calculate_drop_empty_aux w h px py .T r _ _ 0 2 0 fuel
        hcells hsk hmm (by decide) (by decide) (by decide) hin⟩
    · have hcells : PieceType.T.get_rotation r = [(1, 0), (1, 1), (1, 2), (2, 1)] := by
        simp [PieceType.get_rotation, PieceType.rotation_count, PieceType.rotations, hr]
      have hmm : PieceType.T.minmax_x r = (1, 2) := by
        unfold PieceType.minmax_x
        rw [hcells]
        decide
      have hsk : PieceType.T.skirt r = [0, 1] := by
        unfold PieceType.skirt
        rw [hcells, hmm]
        decide
      rw [hcells] at hin ⊢
      exact ⟨0, calculate_drop_empty_aux w h px py .T r _ _ 1 2 0 fuel
        hcells hsk hmm (by decide) (by decide) (by decide) hin⟩
    · have hcells : PieceType.T.get_rotation r = [(0, 1), (1, 1), (2, 1), (1, 2)] := by
        simp [PieceType.get_rotation, PieceType.rotation_count, PieceType.rotations, hr]
      have hmm : PieceType.T.minmax_x r = (0, 2) := by
        unfold PieceType.minmax_x
        rw [hcells]
        decide
      have hsk : PieceType.T.skirt r = [1, 1, 1] := by
        unfold PieceType.skirt
        rw [hcells, hmm]
        decide
      rw [hcells] at hin ⊢
      exact ⟨(-1 : Int), calculate_drop_empty_aux w h px py .T r _ _ 0 2 (-1 : Int) fuel
        hcells hsk hmm (by decide) (by decide) (by decide) hin⟩
    · have hcells : PieceType.T.get_rotation r = [(0, 1), (1, 0), (1, 1), (1, 2)] := by
        simp [PieceType.get_rotation, PieceType.rotation_count, PieceType.rotations, hr]
      have hmm : PieceType.T.minmax_x r = (0, 1) := by
        unfold PieceType.minmax_x
        rw [hcells]
        decide
      have hsk : PieceType.T.skirt r = [1, 0] := by
        unfold PieceType.skirt
        rw [hcells, hmm]
        decide
      rw [hcells] at hin ⊢
      exact ⟨0, calculate_drop_empty_aux w h px py .T r _ _ 0 1 0 fuel
        hcells hsk hmm (by decide) (by decide) (by decide) hin⟩
  case O =>
    rcases h4 with hr | hr | hr | hr
    · have hcells : PieceType.O.get_rotation r = [(0, 0), (1, 0), (0, 1), (1, 1)] := by
        simp [PieceType.get_rotation, PieceType.rotation_count, PieceType.rotations, hr]
      have hmm : PieceType.O.minmax_x r = (0, 1) := by
        unfold PieceType.minmax_x
        rw [hcells]
        decide
      have hsk : PieceType.O.skirt r = [0, 0] := by
        unfold PieceType.skirt
        rw [hcells, hmm]
        decide
      rw [hcells] at hin ⊢
      exact ⟨0, calculate_drop_empty_aux w h px py .O r _ _ 0 1 0 fuel
        hcells hsk hmm (by decide) (by decide) (by decide) hin⟩
    · have hcells : PieceType.O.get_rotation r = [(0, 0), (1, 0), (0, 1), (1, 1)] := by
        simp [PieceType.get_rotation, PieceType.rotation_count, PieceType.rotations, hr]
      have hmm : PieceType.O.minmax_x r = (0, 1) := by
        unfold PieceType.minmax_x
        rw [hcells]
        decide
      have hsk : PieceType.O.skirt r = [0, 0] := by
        unfold PieceType.skirt
        rw [hcells, hmm]
        decide
      rw [hcells] at hin ⊢
      exact ⟨0, calculate_drop_empty_aux w h px py .O r _ _ 0 1 0 fuel
        hcells hsk hmm (by decide) (by decide) (by decide) hin⟩
    · have hcells : PieceType.O.get_rotation r = [(0, 0), (1, 0), (0, 1), (1, 1)] := by
        simp [PieceType.get_rotation, PieceType.rotation_count, PieceType.rotations, hr]
      have hmm : PieceType.O.minmax_x r = (0, 1) := by
        unfold PieceType.minmax_x
        rw [hcells]
        decide
      have hsk : PieceType.O.skirt r = [0, 0] := by
        unfold PieceType.skirt
        rw [hcells, hmm]
        decide
      rw [hcells] at hin ⊢
      exact ⟨0, calculate_drop_empty_aux w h px py .O r _ _ 0 1 0 fuel
        hcells hsk hmm (by decide) (by decide) (by decide) hin⟩
    · have hcells : PieceType.O.get_rotation r = [(0, 0), (1, 0), (0, 1), (1, 1)] := by
        simp [PieceType.get_rotation, PieceType.rotation_count, PieceType.rotations, hr]
      have hmm : PieceType.O.minmax_x r = (0, 1) := by
        unfold PieceType.minmax_x
        rw [hcells]
        decide
      have hsk : PieceType.O.skirt r = [0, 0] := by
        unfold PieceType.skirt
        rw [hcells, hmm]
        decide
      rw [hcells] at hin ⊢
      exact ⟨0, calculate_drop_empty_aux w h px py .O r _ _ 0 1 0 fuel
        hcells hsk hmm (by decide) (by decide) (by decide) hin⟩

/-- C3 witness: the T piece at rotation 0, placed fully inside an empty
10x20 board at (4, 10). -/
theorem C3_drop_lands_on_floor_witness :
    ∃ y0 res b',
      Board.calculate_drop (Board.new 10 20) ⟨.T, 0, ⟨4, 10⟩⟩ 1 =
        (some (⟨4, y0⟩, res), b') ∧
      (res = .PlaceOk ∨ res = .RowFilled) ∧
      (∀ c ∈ PieceType.T.get_rotation 0, 0 ≤ y0 + c.2) ∧
      (∃ c ∈ PieceType.T.get_rotation 0, y0 + c.2 = 0) ∧
      (Board.new 10 20).place_scan (PieceType.T.get_rotation 0) ⟨4, y0⟩ = none :=
  C3_drop_lands_on_floor 10 20 .T 0 4 10 0 (by decide)

/-! ### C6: the Paused state of the controller -/

/-- C6: while the controller is paused, an update with a movement, rotation
or hard-drop input, or with no input, returns the instance bit-for-bit
unchanged (no timer accumulates); Pause returns to the remembered prior
state, clears the memory, and resumes all timers without touching their
elapsed progress; SaveState snapshots the live board state and ResumeState
restores the saved snapshot, each clearing the active piece and
transitioning to Ready. -/
theorem C6_paused_update (bi : BoardInstance) (dt : Rat) (rng : Nat)
    (ps : GameState) (st : BoardState)
    (hpause : bi.game_state = .Paused)
    (hprev : bi.prev_game_state = some ps)
    (hsaved : bi.board.saved_state = some st) :
    bi.update dt none rng = bi ∧
    bi.update dt (some .L) rng = bi ∧
    bi.update dt (some .R) rng = bi ∧
    bi.update dt (some .Rotate) rng = bi ∧
    bi.update dt (some .HardDrop) rng = bi ∧
    bi.update dt (some .Pause) rng =
      { bi with game_state := ps, prev_game_state := none,
                timers := bi.timers.resume_all } ∧
    bi.timers.resume_all.gravity.elapsed = bi.timers.gravity.elapsed ∧
    bi.timers.resume_all.lock.elapsed = bi.timers.lock.elapsed ∧
    bi.timers.resume_all.clear_animation.elapsed = bi.timers.clear_animation.elapsed ∧
    bi.timers.resume_all.game_over_animation.elapsed =
      bi.timers.game_over_animation.elapsed ∧
    bi.timers.resume_all.gravity.paused = false ∧
    bi.timers.resume_all.lock.paused = false ∧
    bi.timers.resume_all.clear_animation.paused = false ∧
    bi.timers.resume_all.game_over_animation.paused = false ∧
    bi.update dt (some .SaveState) rng =
      { bi with board := bi.board.save_state, active_piece := none,
                game_state := .Ready } ∧
    (bi.board.save_state).saved_state = some bi.board.state ∧
    (bi.board.save_state).state = bi.board.state ∧
    bi.update dt (some .ResumeState) rng =
      { bi with board := bi.board.resume_state, active_piece := none,
                game_state := .Ready } ∧
    (bi.board.resume_state).state = st := by
  have hstep : ∀ i : PlayerInput, bi.update dt (some i) rng = bi.handle_pause_input i := by
    intro i
    unfold BoardInstance.update
    rw [hpause]
  have hnone : bi.update dt none rng = bi := by
    unfold BoardInstance.update
    rw [hpause]
  have hp : bi.handle_pause_input .Pause =
      { bi with game_state := ps, prev_game_state := none,
                timers := bi.timers.resume_all } := by
    unfold BoardInstance.handle_pause_input BoardInstance.handle_pause
    rw [hpause, hprev]
    rfl
  refine ⟨hnone, hstep .L, hstep .R, hstep .Rotate, hstep .HardDrop,
    by rw [hstep .Pause, hp], rfl, rfl, rfl, rfl, rfl, rfl, rfl, rfl,
    hstep .SaveState, rfl, rfl, hstep .ResumeState, ?_⟩
  unfold Board.resume_state
  rw [hsaved]

/-- A concrete paused controller used to witness the pause behavior: it
paused out of the Falling state and holds a saved board snapshot. -/
def pausedSample : BoardInstance :=
  { board := (Board.new 4 4).save_state,
    game_state := .Paused,
    prev_game_state := some .Falling,
    timers := (GameTimers.new 1 1 1 1 1).pause_all,
    rows_to_clear := none,
    active_piece := none }

/-- C6 witness: the paused sample instance, exercised at dt = 1. -/
theorem C6_paused_update_witness :
    BoardInstance.update pausedSample 1 none 0 = pausedSample ∧
    BoardInstance.update pausedSample 1 (some .HardDrop) 0 = pausedSample ∧
    BoardInstance.update pausedSample 1 (some .Pause) 0 =
      { pausedSample with game_state := .Falling, prev_game_state := none,
                          timers := pausedSample.timers.resume_all } ∧
    BoardInstance.update pausedSample 1 (some .SaveState) 0 =
      { pausedSample with board := pausedSample.board.save_state,
                          active_piece := none, game_state := .Ready } ∧
    (pausedSample.board.resume_state).state = BoardState.new 4 4 := by
  obtain ⟨a1, _, _, _, a5, a6, _, _, _, _, _, _, _, _, a15, _, _, _, a19⟩ :=
    C6_paused_update pausedSample 1 0 .Falling (BoardState.new 4 4) rfl rfl rfl
  exact ⟨a1, a5, a6, a15, a19⟩
